import Mathlib

/-!
# GoRcon-ArmA supervisor entry point (`gorcon-arma.go`)

A shallow embedding of `main`, `do`, `newRcon`, `newProcWatch`, `newScheduler`,
`logCmd` and `streamConsole`.  Calls into other packages are recorded as a trace
of `Event`s; what the outside world answers (file system, network, process
launch) is read from an `Env`.  A nil Go `error` is `none`.
-/

namespace GorconArma

/-- A Go `error` value; the nil error is `none : Option GoError`. -/
structure GoError where
  msg : String
deriving DecidableEq, Repr

/-! ## Go standard library: package `path`

Paths are handled as lists of characters.  `Clean` only inspects the bytes `/`
and `.`, which never occur inside a multi-byte UTF-8 sequence, so working on
characters instead of bytes gives the same result. -/

namespace path

/-- Go `strings.LastIndexByte`: index of the last `c` in `s`, `-1` when absent.
`i` is the index of the head of `s`, `acc` the last hit so far. -/
def lastIndexByteFrom (c : Char) : List Char → Nat → Int → Int
  | [], _, acc => acc
  | x :: xs, i, acc => lastIndexByteFrom c xs (i + 1) (if x = c then (i : Int) else acc)

/-- Go `strings.LastIndexByte`. -/
def lastIndexByte (s : List Char) (c : Char) : Int :=
  lastIndexByteFrom c s 0 (-1)

/-- Go `path.Split`: `i := LastIndexByte(path, '/'); return path[:i+1], path[i+1:]`. -/
def Split (p : List Char) : List Char × List Char :=
  let i := lastIndexByte p '/'
  (p.take (i + 1).toNat, p.drop (i + 1).toNat)

/-- The `..` case of `Clean` when it can backtrack.  Called with `w` already
decremented once: `for out.w > dotdot && out.index(out.w) != '/' { out.w-- }`,
returning the first `w` bytes of the buffer. -/
def backtrack (out : List Char) (dotdot : Nat) : Nat → List Char
  | 0 => []
  | w + 1 =>
    if dotdot < w + 1 ∧ out.getD (w + 1) '/' ≠ '/' then backtrack out dotdot w
    else out.take (w + 1)

/-- The main loop of Go `path.Clean`.  Arguments: the bytes of the path from
index `r` on, whether the inner "copy element" loop is running, the output
written so far (`out.w` is its length) and `dotdot`.  The inner loop stops at a
slash, which the outer loop then skips as an empty path element; both steps are
taken at once here. -/
def cleanLoop (rooted : Bool) : List Char → Bool → List Char → Nat → List Char
  | [], _, out, _ => out
  | c :: rest, true, out, dotdot =>
    if c = '/' then cleanLoop rooted rest false out dotdot
    else cleanLoop rooted rest true (out ++ [c]) dotdot
  | c :: rest, false, out, dotdot =>
    if c = '/' then
      -- empty path element
      cleanLoop rooted rest false out dotdot
    else if c = '.' ∧ (rest = [] ∨ rest.head? = some '/') then
      -- . element
      cleanLoop rooted rest false out dotdot
    else
      match rest with
      | c2 :: rest2 =>
        if c = '.' ∧ c2 = '.' ∧ (rest2 = [] ∨ rest2.head? = some '/') then
          -- .. element: remove to last /
          if dotdot < out.length then
            cleanLoop rooted rest2 false (backtrack out dotdot (out.length - 1)) dotdot
          else if !rooted then
            let out1 := if 0 < out.length then out ++ ['/'] else out
            let out2 := out1 ++ ['.', '.']
            cleanLoop rooted rest2 false out2 out2.length
          else cleanLoop rooted rest2 false out dotdot
        else
          -- real path element: add slash if needed, copy element
          let out1 :=
            if (rooted && out.length != 1) || (!rooted && out.length != 0) then out ++ ['/']
            else out
          cleanLoop rooted (c2 :: rest2) true (out1 ++ [c]) dotdot
      | [] =>
        let out1 :=
          if (rooted && out.length != 1) || (!rooted && out.length != 0) then out ++ ['/']
          else out
        out1 ++ [c]

/-- Go `path.Clean`. -/
def Clean (p : List Char) : List Char :=
  if p = [] then ['.']
  else
    let rooted := decide (p.head? = some '/')
    let out := if rooted then cleanLoop rooted (p.drop 1) false ['/'] 1
               else cleanLoop rooted p false [] 0
    -- Turn empty string into "."
    if out.length = 0 then ['.'] else out

/-- Go `path.Dir`: `dir, _ := Split(path); return Clean(dir)`. -/
def Dir (p : String) : String :=
  String.mk (Clean (Split p.data).1)

end path

/-! ## Configuration, flags and the outside world -/

/-- The values `cfg` (viper) serves for the keys the program reads. -/
structure Config where
  playnetSentry : String
  schedulerEnabled : Bool
  schedulerPath : String
  watcherEnabled : Bool
  watcherLogToConsole : Bool
  watcherExec : String
  watcherDir : String
  watcherParams : List String
  watcherAutoRestart : Bool
  armaEnabled : Bool
  armaIp : String
  armaPort : String
  armaPassword : String
  armaKeepAliveTimer : Int
  armaKeepAliveTolerance : Int
deriving DecidableEq, Repr

/-- Objects `do` creates itself: the two ends of `io.Pipe()` and the `quit`
channel. -/
inductive Ref where
  | cr
  | cw
  | quit
deriving DecidableEq, Repr

/-- Go `watcher.Process`; a nil `io.Writer` is `none`. -/
structure Process where
  ExecPath : String
  ExecDir : String
  ExecParam : List String
  StdErr : Option Ref
  StdOut : Option Ref
deriving DecidableEq, Repr

/-- Go `rcon.Credentials`. -/
structure Credentials where
  Username : String
  Password : String
deriving DecidableEq, Repr

/-- Go `rcon.Connection`; `Addr` is the resolved UDP address. -/
structure Connection where
  Addr : String
  KeepAliveTimer : Int
  KeepAliveTolerance : Int
deriving DecidableEq, Repr

/-- Modelled from the spec: one entry of the declarative schedule source, "a
trigger (time expression or event name) and an action name plus arguments"; the
type lives in package `scheduler`, which is not part of the sources. -/
structure ScheduleEntry where
  trigger : String
  action : String
  args : List String
deriving DecidableEq, Repr

/-- Modelled from the spec: the Schedule, "an ordered collection of trigger
definitions". -/
abbrev Schedule := List ScheduleEntry

/-- The functions that end up in the action registry: `logCmd` of this file, and
the ones the watcher and the RCON client contribute under a name. -/
inductive Func where
  | logCmd
  | watcher (name : String)
  | rcon (name : String)
deriving DecidableEq, Repr

/-- Go `common.ScheduleFuncs`, a map from action name to function, kept as an
association list with unique keys. -/
abbrev ScheduleFuncs := List (String × Func)

/-- Assignment `funcs[name] = f` on a Go map. -/
def ScheduleFuncs.set (funcs : ScheduleFuncs) (name : String) (f : Func) : ScheduleFuncs :=
  (name, f) :: funcs.filter (fun kv => kv.1 != name)

/-- Lookup `funcs[name]` on a Go map. -/
def ScheduleFuncs.get (funcs : ScheduleFuncs) (name : String) : Option Func :=
  (funcs.find? (fun kv => kv.1 == name)).map Prod.snd

/-- Command-line flags: the three of this file and glog's verbosity `-v`. -/
structure Flags where
  maxprocs : Int
  configPath : String
  devbuild : Bool
  v : Int
deriving DecidableEq, Repr

/-- What the outside world answers to the calls the program makes. -/
structure Env where
  flags : Flags
  /-- The build constant `version`, declared outside this file. -/
  version : String
  /-- Result of `cfg.ReadInConfig()` in `getConfig`: the loaded values or the error. -/
  ReadInConfig : Except GoError Config
  /-- Result of `scheduler.ReadSchedule(path)`. -/
  ReadSchedule : String → Schedule × Option GoError
  /-- Result of `net.ResolveUDPAddr("udp", address)`. -/
  ResolveUDPAddr : String → String × Option GoError
  /-- Result of `rc.Connect()`. -/
  Connect : Connection → Credentials → Option GoError
  /-- Result of the `n`-th launch `w.Exec()` of the process (`n` counts from 0). -/
  Exec : Process → Nat → Option GoError

/-! ## glog -/

/-- Severity of a glog entry. -/
inductive Severity where
  | info
  | error
  | fatal
deriving DecidableEq, Repr

/-- One glog entry. -/
structure LogEntry where
  severity : Severity
  text : String
deriving DecidableEq, Repr

/-- Go `glog.Infoln(s)`: one entry of severity info. -/
def glogInfoln (s : String) : List LogEntry :=
  [{ severity := .info, text := s }]

/-! ## Package `scheduler` -/

/-- Modelled from the spec: the Scheduler of package `scheduler` (not part of the
sources), which "holds a registry of named actions" (`Funcs`, read by `do`) and
the loaded schedule. -/
structure Scheduler where
  schedule : Schedule
  Funcs : ScheduleFuncs
deriving DecidableEq, Repr

/-- Modelled from the spec: `New(schedule, initialActions) -> Scheduler` of
package `scheduler`. -/
def Scheduler.New (schedule : Schedule) (funcs : ScheduleFuncs) : Scheduler :=
  { schedule := schedule, Funcs := funcs }

/-- Modelled from the spec: `UpdateFuncs(mergedActions)` of package `scheduler`
"merges additional named actions contributed by other components into the
registry"; "last registration for a given name wins". -/
def Scheduler.UpdateFuncs (s : Scheduler) (funcs : ScheduleFuncs) : Scheduler :=
  { s with Funcs := funcs.foldr (fun kv acc => ScheduleFuncs.set acc kv.1 kv.2) s.Funcs }

/-- Modelled from the spec: `BuildEvents()` of package `scheduler` compiles the
schedule, "validating that every referenced action name exists in the registry
and failing fast (`UnknownActionError`) otherwise". -/
def Scheduler.BuildEvents (s : Scheduler) : Option GoError :=
  match s.schedule.find? (fun e => (ScheduleFuncs.get s.Funcs e.action).isNone) with
  | some e => some { msg := "UnknownActionError: " ++ e.action }
  | none => none

/-! ## Package `watcher` -/

/-- Modelled from the spec: the monitoring state of the ProcessHandle. -/
inductive ProcState where
  | Stopped
  | Running
  | Exited
deriving DecidableEq, Repr

/-- The exit handlers handed to `Watch`; the program only uses
`w.RestartAndWatch`. -/
inductive ExitHandler where
  | RestartAndWatch
deriving DecidableEq, Repr

/-- Modelled from the spec: the Watcher of package `watcher` (not part of the
sources): the process description, its state, the handler of the attached exit
monitor if any, and how often `Exec` was called. -/
structure Watcher where
  proc : Process
  state : ProcState
  monitor : Option ExitHandler
  execCalls : Nat
deriving DecidableEq, Repr

/-- Modelled from the spec: `watcher.New(proc)`. -/
def Watcher.New (proc : Process) : Watcher :=
  { proc := proc, state := .Stopped, monitor := none, execCalls := 0 }

/-- Modelled from the spec: `Exec() -> Result<(), LaunchError>` "starts the
configured executable"; Stopped → Running on success. -/
def Watcher.Exec (env : Env) (w : Watcher) : Watcher × Option GoError :=
  match env.Exec w.proc w.execCalls with
  | none => ({ w with state := .Running, execCalls := w.execCalls + 1 }, none)
  | some e => ({ w with state := .Stopped, execCalls := w.execCalls + 1 }, some e)

/-- Modelled from the spec: `Watch(onExit)` "spawns a monitor that blocks until
process termination and then invokes `onExit`". -/
def Watcher.Watch (w : Watcher) (onExit : ExitHandler) : Watcher :=
  { w with monitor := some onExit }

/-- Modelled from the spec: termination of the supervised process.  Without a
monitor the process stays Exited.  With the monitor, its handler runs once;
`RestartAndWatch` "re-invokes `Exec` and re-establishes `Watch`", and a failed
restart is not retried. -/
def Watcher.processExit (env : Env) (w : Watcher) : Watcher :=
  if w.state ≠ .Running then w
  else
    match w.monitor with
    | none => { w with state := .Exited }
    | some .RestartAndWatch =>
      match Watcher.Exec env { w with state := .Exited, monitor := none } with
      | (w1, none) => Watcher.Watch w1 .RestartAndWatch
      | (w1, some _) => w1

/-- The watcher after `n` terminations of the supervised process. -/
def Watcher.processExits (env : Env) (w : Watcher) : Nat → Watcher
  | 0 => w
  | n + 1 => Watcher.processExit env (Watcher.processExits env w n)

/-- Modelled from the spec: `InjectExtFuncs` of the watcher "exposes
monitoring/restart capability as named actions (`restart`)". -/
def Watcher.InjectExtFuncs (_w : Watcher) (funcs : ScheduleFuncs) : ScheduleFuncs :=
  ScheduleFuncs.set funcs "restart" (.watcher "restart")

/-! ## Package `rcon` -/

/-- The RCON client built by `newRcon` from the bercon client. -/
structure Client where
  con : Connection
  cred : Credentials
deriving DecidableEq, Repr

/-- Modelled from the spec: `InjectExtFuncs` of the RCON client "exposes its
send-a-raw-command capability as a named action (`exec`)". -/
def Client.InjectExtFuncs (_c : Client) (funcs : ScheduleFuncs) : ScheduleFuncs :=
  ScheduleFuncs.set funcs "exec" (.rcon "exec")

/-! ## Trace of calls -/

/-- The three components `do` brings up, in this order. -/
inductive Component where
  | scheduler
  | watcher
  | rcon
deriving DecidableEq, Repr

/-- Position of a component in the start-up order. -/
def Component.rank : Component → Nat
  | .scheduler => 0
  | .watcher => 1
  | .rcon => 2

/-- The calls the program makes, in the order it makes them.  Calls on the
scheduler carry the receiver (`none` is the nil pointer). -/
inductive Event where
  | glog (e : LogEntry)
  | stdout (line : String)
  | stderr (line : String)
  | glogCopyStandardLogTo (name : String)
  | flagParse
  | GOMAXPROCS (n : Int)
  | glogFlush
  | osExit (code : Int)
  | ravenSetDSN (dsn : String)
  | ravenSetIncludePaths (paths : List String)
  | ravenCapturePanic (msg : String)
  | ravenCaptureErrorAndWait (err : GoError) (tags : List (String × String))
  | ioPipe
  | goStreamConsole (consoleOut : Ref)
  | makeChan
  | newScheduler
  | ReadSchedule (scPath : String)
  | schedulerNew (schedule : Schedule) (funcs : ScheduleFuncs)
  | newProcWatch (stderr stdout : Option Ref)
  | watcherNew (proc : Process)
  | watcherExec
  | watcherWatch (onExit : ExitHandler)
  | watcherInjectExtFuncs (funcs : ScheduleFuncs)
  | newRcon
  | ResolveUDPAddr (network address : String)
  | berconNew (con : Connection) (cred : Credentials)
  | rconNewClient
  | rconConnect
  | rconExec (cmd : String)
  | rconInjectExtFuncs (funcs : ScheduleFuncs)
  | UpdateFuncs (recv : Option Scheduler) (src : Component) (funcs : ScheduleFuncs)
  | BuildEvents (recv : Option Scheduler)
  | Start (recv : Option Scheduler)
  | recvQuit (q : Int)
deriving DecidableEq, Repr

/-- Which component an event brings up, if any. -/
def Event.component : Event → Option Component
  | .newScheduler => some .scheduler
  | .ReadSchedule _ => some .scheduler
  | .schedulerNew _ _ => some .scheduler
  | .newProcWatch _ _ => some .watcher
  | .watcherNew _ => some .watcher
  | .watcherExec => some .watcher
  | .watcherWatch _ => some .watcher
  | .newRcon => some .rcon
  | .ResolveUDPAddr _ _ => some .rcon
  | .berconNew _ _ => some .rcon
  | .rconNewClient => some .rcon
  | .rconConnect => some .rcon
  | _ => none

/-- The objects created by `do` that a call hands over: as an argument, or as a
field of the `watcher.Process` argument. -/
def Event.refs : Event → List Ref
  | .goStreamConsole r => [r]
  | .newProcWatch se so => se.toList ++ so.toList
  | .watcherNew proc => proc.StdErr.toList ++ proc.StdOut.toList
  | _ => []

/-- How a run of `do` ends: it returns `err`, it panics, or it waits on `quit`
forever. -/
inductive Outcome where
  | returned (err : Option GoError)
  | panicked (msg : String)
  | blocked
deriving DecidableEq, Repr

/-! ## The program -/

/-- Go `glog.V(1).Infof("Reading Config")` in `getConfig`: logged at verbosity 1
and above. -/
def readingConfigLog (env : Env) : List Event :=
  if 1 ≤ env.flags.v then [.glog { severity := .info, text := "Reading Config" }] else []

/-- Source `getConfig`: the loaded configuration, or a panic with the message. -/
def getConfig (env : Env) : List Event × Except String Config :=
  match env.ReadInConfig with
  | .ok cfg => (readingConfigLog env, .ok cfg)
  | .error err =>
    let message := "Loading Config failed with Error: " ++ err.msg
    (readingConfigLog env ++ [.glog { severity := .error, text := message }], .error message)

/-- Source `logCmd`. -/
def logCmd (cmd : String) : List LogEntry :=
  glogInfoln cmd

/-- What invoking a registered function with one string argument logs; only
`logCmd` is defined in this file. -/
def Func.invoke : Func → String → List LogEntry
  | .logCmd, s => GorconArma.logCmd s
  | _, _ => []

/-- Source `newScheduler`. -/
def newScheduler (cfg : Config) (env : Env) : List Event × Option Scheduler × Option GoError :=
  let scPath := cfg.schedulerPath
  match env.ReadSchedule scPath with
  | (_, some err) => ([.ReadSchedule scPath], none, some err)
  | (schedule, none) =>
    let funcs : ScheduleFuncs := []
    let funcs := ScheduleFuncs.set funcs "log" .logCmd
    ([.ReadSchedule scPath, .schedulerNew schedule funcs],
      some (Scheduler.New schedule funcs), none)

/-- Source `newProcWatch`. -/
def newProcWatch (cfg : Config) (env : Env) (stderr stdout : Option Ref) :
    List Event × Watcher × Option GoError :=
  let execPath := cfg.watcherExec
  let execDir := cfg.watcherDir
  let execDir := if execDir = "" then path.Dir execPath else execDir
  let execParam := cfg.watcherParams
  let proc : Process :=
    { ExecPath := execPath, ExecDir := execDir, ExecParam := execParam,
      StdErr := stderr, StdOut := stdout }
  let w := Watcher.New proc
  match Watcher.Exec env w with
  | (w, some err) => ([.watcherNew proc, .watcherExec], w, some err)
  | (w, none) =>
    if cfg.watcherAutoRestart then
      ([.watcherNew proc, .watcherExec, .watcherWatch .RestartAndWatch],
        Watcher.Watch w .RestartAndWatch, none)
    else ([.watcherNew proc, .watcherExec], w, none)

/-- Source `newRcon`. -/
def newRcon (cfg : Config) (env : Env) : List Event × Option Client × Option GoError :=
  let beIP := cfg.armaIp
  let bePort := cfg.armaPort
  let bePassword := cfg.armaPassword
  let beKeepAliveTimer := cfg.armaKeepAliveTimer
  let beKeepAliveTolerance := cfg.armaKeepAliveTolerance
  let beCred : Credentials := { Username := "", Password := bePassword }
  match env.ResolveUDPAddr (beIP ++ ":" ++ bePort) with
  | (_, some err) => ([.ResolveUDPAddr "udp" (beIP ++ ":" ++ bePort)], none, some err)
  | (beConAddr, none) =>
    let beCon : Connection :=
      { Addr := beConAddr, KeepAliveTimer := beKeepAliveTimer,
        KeepAliveTolerance := beKeepAliveTolerance }
    let rc : Client := { con := beCon, cred := beCred }
    let events : List Event :=
      [.ResolveUDPAddr "udp" (beIP ++ ":" ++ bePort), .berconNew beCon beCred, .rconNewClient,
        .glog { severity := .info, text := "Establishing Connection to Server" }, .rconConnect]
    match env.Connect beCon beCred with
    | some err => (events, none, some err)
    | none => (events, some rc, none)

/-- Source `do`, lines 118 to 126: `sched.BuildEvents()`, `sched.Start()`, then
the wait on `quit`.  The result of `BuildEvents` is not looked at.  A method of
the scheduler called on the nil pointer panics when it reads the receiver.
`quitVal` is the value received on `quit`, `none` when nothing is ever sent. -/
def doFinish (quitVal : Option Int) (events : List Event) (sched : Option Scheduler) :
    List Event × Outcome :=
  match sched with
  | none => (events ++ [.BuildEvents none], .panicked "nil pointer dereference")
  | some s =>
    let _ := Scheduler.BuildEvents s
    let events := events ++ [.BuildEvents (some s), .Start (some s)]
    match quitVal with
    | none => (events, .blocked)
    | some q =>
      if q = 1 then (events ++ [.recvQuit q], .returned none)
      else (events ++ [.recvQuit q], .returned none)

/-- Source `do`, lines 107 to 116: the RCON client. -/
def doRcon (cfg : Config) (env : Env) (quitVal : Option Int) (events : List Event)
    (sched : Option Scheduler) : List Event × Outcome :=
  let useSched := cfg.schedulerEnabled
  let useRcon := cfg.armaEnabled
  if useRcon then
    match newRcon cfg env with
    | (evs, _, some err) => (events ++ [.newRcon] ++ evs, .returned (some err))
    | (evs, none, none) =>
      (events ++ [.newRcon] ++ evs, .panicked "nil pointer dereference")
    | (evs, some client, none) =>
      let events := events ++ [.newRcon] ++ evs ++
        [.rconExec "say -1 PlayNet GoRcon-ArmA Connected"]
      if useSched then
        match sched with
        | none => (events, .panicked "nil pointer dereference")
        | some s =>
          let funcs := Client.InjectExtFuncs client s.Funcs
          doFinish quitVal
            (events ++ [.rconInjectExtFuncs s.Funcs, .UpdateFuncs (some s) .rcon funcs])
            (some (Scheduler.UpdateFuncs s funcs))
      else doFinish quitVal events sched
  else doFinish quitVal events sched

/-- Source `do`, lines 93 to 105: the process watcher. -/
def doWatch (cfg : Config) (env : Env) (quitVal : Option Int) (events : List Event)
    (sched : Option Scheduler) : List Event × Outcome :=
  let useSched := cfg.schedulerEnabled
  let useWatch := cfg.watcherEnabled
  let logToConsole := cfg.watcherLogToConsole
  if useWatch then
    let stderr : Option Ref := if logToConsole then some .cw else none
    let stdout : Option Ref := if logToConsole then some .cw else none
    match newProcWatch cfg env stderr stdout with
    | (evs, _, some err) => (events ++ [.newProcWatch stderr stdout] ++ evs, .returned (some err))
    | (evs, watch, none) =>
      let events := events ++ [.newProcWatch stderr stdout] ++ evs
      if useSched then
        match sched with
        | none => (events, .panicked "nil pointer dereference")
        | some s =>
          let funcs := Watcher.InjectExtFuncs watch s.Funcs
          doRcon cfg env quitVal
            (events ++ [.watcherInjectExtFuncs s.Funcs, .UpdateFuncs (some s) .watcher funcs])
            (some (Scheduler.UpdateFuncs s funcs))
      else doRcon cfg env quitVal events sched
  else doRcon cfg env quitVal events sched

/-- Source `do`: the trace of calls and how the run ends. -/
def do_ (env : Env) (quitVal : Option Int) : List Event × Outcome :=
  match getConfig env with
  | (evs, .error message) => (evs, .panicked message)
  | (evs, .ok cfg) =>
    let events := evs ++
      (if !env.flags.devbuild then
        [.ravenSetDSN cfg.playnetSentry,
          .ravenSetIncludePaths ["github.com/playnet-public/gorcon-arma/"]]
      else [])
    let useSched := cfg.schedulerEnabled
    let logToConsole := cfg.watcherLogToConsole
    let events := events ++ [.ioPipe] ++
      (if logToConsole then [.goStreamConsole .cr] else []) ++ [.makeChan]
    if useSched then
      match newScheduler cfg env with
      | (evs, _, some err) => (events ++ [.newScheduler] ++ evs, .returned (some err))
      | (evs, sched, none) => doWatch cfg env quitVal (events ++ [.newScheduler] ++ evs) sched
    else doWatch cfg env quitVal events none

/-- How the process ends: with an exit code, or never (it waits forever). -/
inductive ProcessEnd where
  | exit (code : Int)
  | running
deriving DecidableEq, Repr

/-- Source `main`, lines 40 to 51: what it prints and sets before `do` runs. -/
def mainPrelude (env : Env) : List Event :=
  [.glogCopyStandardLogTo "info", .flagParse,
    .stdout "-- PlayNet GoRcon-ArmA - OpenSource Server Manager --",
    .stdout ("Version: " ++ env.version),
    .stdout "SourceCode: http://bit.ly/gorcon-code",
    .stdout "Tasks: http://bit.ly/gorcon-issues",
    .stdout "",
    .stdout "This project is work in progress - Use at your own risk",
    .stdout "--",
    .stdout "",
    .stdout ("Using " ++ toString env.flags.maxprocs ++ " go procs"),
    .GOMAXPROCS env.flags.maxprocs]

/-- Source `main`: after the prelude `do` runs inside
`raven.CapturePanicAndWait`, which reports a panic and returns; the deferred
`glog.Flush` runs when `main` returns.  `fatalExits` says whether `glog.Fatal`
terminates the process (glog: it logs, then calls `os.Exit(255)`, so the
statement after it and the deferred call do not run). -/
def main (env : Env) (quitVal : Option Int) (fatalExits : Bool) : List Event × ProcessEnd :=
  match do_ env quitVal with
  | (evs, .returned none) => (mainPrelude env ++ evs ++ [.glogFlush], .exit 0)
  | (evs, .returned (some err)) =>
    let events := mainPrelude env ++ evs ++ [.glog { severity := .fatal, text := err.msg }]
    if fatalExits then (events ++ [.osExit 255], .exit 255)
    else
      (events ++ [.ravenCaptureErrorAndWait err [("isFinal", "true")], .glogFlush], .exit 0)
  | (evs, .panicked msg) =>
    (mainPrelude env ++ evs ++ [.ravenCapturePanic msg, .glogFlush], .exit 0)
  | (evs, .blocked) => (mainPrelude env ++ evs, .running)

/-! ## Go standard library: `bufio.Scanner` with the default split function

The reader side is the read end of `io.Pipe()`: it delivers bytes, and reports
its end (`io.EOF`, or another error) by a `Read` of its own that carries no
bytes. -/

/-- A byte of a stream or of a Go string. -/
abbrev Byte := Fin 256

/-- The newline byte `\n`. -/
def LF : Byte := 10

/-- The carriage return byte `\r`. -/
def CR : Byte := 13

/-- Go `string(b)`: the string with the bytes `b`.  A Go string is a sequence of
bytes; it is kept as the string that has one character per byte, the character
with the code of the byte, which for ASCII bytes is the text itself. -/
def goString (b : List Byte) : String :=
  String.mk (b.map fun x => Char.ofNat x.val)

/-- An input stream that ends: the bytes it delivers, and the error of the
final `Read` (`none` is `io.EOF`). -/
structure Reader where
  data : List Byte
  err : Option GoError
deriving DecidableEq, Repr

namespace bufio

/-- Go `bufio.MaxScanTokenSize`, the size in bytes the scanner's buffer can grow
to. -/
def MaxScanTokenSize : Nat := 64 * 1024

/-- Go `bufio.ErrTooLong`. -/
def ErrTooLong : GoError :=
  { msg := "bufio.Scanner: token too long" }

/-- Go `bytes.IndexByte`: index of the first `c`; `none` where Go returns `-1`. -/
def indexByte (c : Byte) : List Byte → Option Nat
  | [] => none
  | x :: xs => if x = c then some 0 else (indexByte c xs).map (· + 1)

/-- Go `dropCR` of package `bufio`: drops a terminal `\r` from the data. -/
def dropCR (data : List Byte) : List Byte :=
  if 0 < data.length ∧ data.getLast? = some CR then data.take (data.length - 1) else data

/-- Go `bufio.ScanLines`: the advance and the token (`none` is the nil token);
its error result is always nil. -/
def ScanLines (data : List Byte) (atEOF : Bool) : Nat × Option (List Byte) :=
  if atEOF ∧ data.length = 0 then (0, none)
  else
    match indexByte LF data with
    | some i =>
      -- We have a full newline-terminated line.
      (i + 1, some (dropCR (data.take i)))
    | none =>
      -- If we are at EOF, we have a final, non-terminated line. Return it.
      if atEOF then (data.length, some (dropCR data))
      else (0, none) -- Request more data.

/-- Go `bufio.Scanner` over a `Reader`: the bytes not yet consumed, how the
reader ends, the buffer limit, the last token and the first non-EOF error. -/
structure Scanner where
  rest : List Byte
  readErr : Option GoError
  maxTokenSize : Nat
  token : List Byte
  err : Option GoError
deriving DecidableEq, Repr

/-- Go `bufio.NewScanner`. -/
def NewScanner (r : Reader) : Scanner :=
  { rest := r.data, readErr := r.err, maxTokenSize := MaxScanTokenSize, token := [], err := none }

/-- Go `Scanner.Scan`.  The scanner reads until the split function finds a
token in its buffer, the reader ends, or the buffer is full at its maximal
size: so the split function decides on the next `maxTokenSize` bytes, with
`atEOF` set when the reader ended before the buffer was full.  No token at the
end of the reader ends the scan with the reader's error, no token in a full
buffer with `ErrTooLong`. -/
def Scanner.Scan (s : Scanner) : Bool × Scanner :=
  let buf := s.rest.take s.maxTokenSize
  let atEOF := decide (s.rest.length < s.maxTokenSize)
  match ScanLines buf atEOF with
  | (advance, some token) => (true, { s with rest := s.rest.drop advance, token := token })
  | (_, none) =>
    if atEOF then (false, { s with rest := [], err := s.readErr })
    else (false, { s with err := some ErrTooLong })

/-- Go `Scanner.Text`. -/
def Scanner.Text (s : Scanner) : String :=
  goString s.token

/-- Go `Scanner.Err`: the first non-EOF error. -/
def Scanner.Err (s : Scanner) : Option GoError :=
  s.err

end bufio

/-- Source `streamConsole`, the loop `for consoleScanner.Scan() { glog.Infoln(
consoleScanner.Text()) }`, run for at most `fuel` calls of `Scan`; `none` when
the fuel does not suffice. -/
def streamConsoleLoop :
    Nat → bufio.Scanner → List Event → Option (List Event × bufio.Scanner)
  | 0, _, _ => none
  | fuel + 1, consoleScanner, events =>
    match consoleScanner.Scan with
    | (true, sc) => streamConsoleLoop fuel sc (events ++ (glogInfoln sc.Text).map Event.glog)
    | (false, sc) => some (events, sc)

/-- Source `streamConsole`: what it logs and prints, and the error it returns.
Every `Scan` that yields a token consumes at least one byte, so one call more
than there are bytes is fuel enough. -/
def streamConsole (consoleOut : Reader) : Option (List Event × Option GoError) :=
  let consoleScanner := bufio.NewScanner consoleOut
  match streamConsoleLoop (consoleOut.data.length + 1) consoleScanner [] with
  | none => none
  | some (events, consoleScanner) =>
    match consoleScanner.Err with
    | some err =>
      some (events ++ [.stderr ("There was an error with the consoleScanner " ++ err.msg)],
        some err)
    | none => some (events, none)

/-! ## Notions the properties are stated with -/

/-- The lines of a text: the text cut at every newline, where the piece after
the last newline is a line only if it is not empty, each line without its
terminator, that is without the newline and without a carriage return at its
end. -/
def specLines (data : List Byte) : List (List Byte) :=
  let pieces := data.splitOn LF
  let pieces := if pieces.getLast? = some [] then pieces.dropLast else pieces
  pieces.map fun piece => if piece.getLast? = some CR then piece.dropLast else piece

/-- The log entry `streamConsole` emits for a line. -/
def logLine (line : List Byte) : Event :=
  .glog { severity := .info, text := goString line }

/-- The calls on the scheduler, without their arguments. -/
inductive SchedCall where
  | UpdateFuncs (src : Component)
  | BuildEvents
  | Start
deriving DecidableEq, Repr

/-- The scheduler call an event stands for, if any. -/
def Event.schedCall : Event → Option SchedCall
  | .UpdateFuncs _ src _ => some (.UpdateFuncs src)
  | .BuildEvents _ => some .BuildEvents
  | .Start _ => some .Start
  | _ => none

/-- The receiver of a scheduler call. -/
def Event.schedRecv : Event → Option (Option Scheduler)
  | .UpdateFuncs recv _ _ => some recv
  | .BuildEvents recv => some recv
  | .Start recv => some recv
  | _ => none

/-- The exit handler of a `Watch` call. -/
def Event.watchHandler : Event → Option ExitHandler
  | .watcherWatch onExit => some onExit
  | _ => none

/-- The process of a `watcher.New` call. -/
def Event.newProcess : Event → Option Process
  | .watcherNew proc => some proc
  | _ => none

/-- The registry of a `scheduler.New` call. -/
def Event.newRegistry : Event → Option ScheduleFuncs
  | .schedulerNew _ funcs => some funcs
  | _ => none

/-- The error of a `raven.CaptureErrorAndWait` call. -/
def Event.capturedError : Event → Option GoError
  | .ravenCaptureErrorAndWait err _ => some err
  | _ => none

/-- The writers `do` passes to `newProcWatch`. -/
def consoleWriter (cfg : Config) : Option Ref :=
  if cfg.watcherLogToConsole then some .cw else none

/-- The process `do` has `newProcWatch` launch: built from the configuration,
with the writers `do` passes. -/
def watcherProcess (cfg : Config) : Process :=
  { ExecPath := cfg.watcherExec
    ExecDir := if cfg.watcherDir = "" then path.Dir cfg.watcherExec else cfg.watcherDir
    ExecParam := cfg.watcherParams
    StdErr := consoleWriter cfg
    StdOut := consoleWriter cfg }

/-- The address `newRcon` resolves. -/
def rconAddress (cfg : Config) : String :=
  cfg.armaIp ++ ":" ++ cfg.armaPort

/-- The connection `newRcon` connects with, once the address is resolved. -/
def rconConnection (cfg : Config) (env : Env) : Connection :=
  { Addr := (env.ResolveUDPAddr (rconAddress cfg)).1
    KeepAliveTimer := cfg.armaKeepAliveTimer
    KeepAliveTolerance := cfg.armaKeepAliveTolerance }

/-- The schedule loads, or the scheduler is not enabled. -/
def scheduleLoads (cfg : Config) (env : Env) : Prop :=
  cfg.schedulerEnabled = true → (env.ReadSchedule cfg.schedulerPath).2 = none

/-- The process launches, or the watcher is not enabled. -/
def processLaunches (cfg : Config) (env : Env) : Prop :=
  cfg.watcherEnabled = true → env.Exec (watcherProcess cfg) 0 = none

/-- Bringing up the enabled component `c` fails with `e` during `do`, in terms of
what the outside world answers: every enabled component before `c` came up, `c`
is enabled, and loading the schedule (scheduler), launching the process
(watcher), or resolving the address or else connecting (RCON client) fails
with the error `e`. -/
def startupFails (cfg : Config) (env : Env) : Component → GoError → Prop
  | .scheduler, e =>
    cfg.schedulerEnabled = true ∧ (env.ReadSchedule cfg.schedulerPath).2 = some e
  | .watcher, e =>
    scheduleLoads cfg env ∧ cfg.watcherEnabled = true ∧
    env.Exec (watcherProcess cfg) 0 = some e
  | .rcon, e =>
    scheduleLoads cfg env ∧ processLaunches cfg env ∧ cfg.armaEnabled = true ∧
    ((env.ResolveUDPAddr (rconAddress cfg)).2 = some e ∨
      ((env.ResolveUDPAddr (rconAddress cfg)).2 = none ∧
        env.Connect (rconConnection cfg env) { Username := "", Password := cfg.armaPassword }
          = some e))

/-- The constructor of the enabled component `c` returns the error `e` during
`do`: every enabled component before `c` came up, `c` is enabled, and its
constructor returns `e`. -/
def constructorFails (cfg : Config) (env : Env) : Component → GoError → Prop
  | .scheduler, e =>
    cfg.schedulerEnabled = true ∧ (newScheduler cfg env).2.2 = some e
  | .watcher, e =>
    (cfg.schedulerEnabled = true → (newScheduler cfg env).2.2 = none) ∧
    cfg.watcherEnabled = true ∧
    (newProcWatch cfg env (consoleWriter cfg) (consoleWriter cfg)).2.2 = some e
  | .rcon, e =>
    (cfg.schedulerEnabled = true → (newScheduler cfg env).2.2 = none) ∧
    (cfg.watcherEnabled = true →
      (newProcWatch cfg env (consoleWriter cfg) (consoleWriter cfg)).2.2 = none) ∧
    cfg.armaEnabled = true ∧ (newRcon cfg env).2.2 = some e

/-- Every enabled component comes up. -/
def startupSucceeds (cfg : Config) (env : Env) : Prop :=
  (cfg.schedulerEnabled = true → (newScheduler cfg env).2.2 = none) ∧
  (cfg.watcherEnabled = true →
    (newProcWatch cfg env (consoleWriter cfg) (consoleWriter cfg)).2.2 = none) ∧
  (cfg.armaEnabled = true → (newRcon cfg env).2.2 = none)

/-- An event of the start-up phase up to component `c`: it hands `quit` to
nobody, brings up no component after `c`, and is neither `BuildEvents`, `Start`
nor the receive on `quit`. -/
def Event.startupUpTo (c : Component) (ev : Event) : Prop :=
  Ref.quit ∉ ev.refs ∧ (∀ c2, ev.component = some c2 → c2.rank ≤ c.rank) ∧
  (∀ s, ev ≠ .BuildEvents s) ∧ (∀ s, ev ≠ .Start s) ∧ (∀ v, ev ≠ .recvQuit v)

/-- The events `do` emits before it brings up the first component. -/
def doHeader (env : Env) (cfg : Config) : List Event :=
  readingConfigLog env ++
  (if !env.flags.devbuild then
    [.ravenSetDSN cfg.playnetSentry,
      .ravenSetIncludePaths ["github.com/playnet-public/gorcon-arma/"]]
  else []) ++ [.ioPipe] ++
  (if cfg.watcherLogToConsole then [.goStreamConsole .cr] else []) ++ [.makeChan]

/-- The `UpdateFuncs` calls of a start-up in which every enabled component
comes up: the watcher's actions, then the RCON client's, each only if the
scheduler is enabled too. -/
def updateCalls (cfg : Config) : List SchedCall :=
  (if cfg.watcherEnabled = true ∧ cfg.schedulerEnabled = true then [.UpdateFuncs .watcher]
    else []) ++
  (if cfg.armaEnabled = true ∧ cfg.schedulerEnabled = true then [.UpdateFuncs .rcon] else [])

/-! ## Concrete inputs -/

/-- A configuration with all three components enabled. -/
def sampleConfig : Config :=
  { playnetSentry := "https://sentry.example/1"
    schedulerEnabled := true
    schedulerPath := "schedule.json"
    watcherEnabled := true
    watcherLogToConsole := true
    watcherExec := "/srv/arma3/arma3server"
    watcherDir := ""
    watcherParams := ["-port=2302", "-config=server.cfg"]
    watcherAutoRestart := true
    armaEnabled := true
    armaIp := "127.0.0.1"
    armaPort := "2302"
    armaPassword := "secret"
    armaKeepAliveTimer := 10
    armaKeepAliveTolerance := 4 }

/-- A schedule with one time trigger bound to `log`. -/
def sampleSchedule : Schedule :=
  [{ trigger := "0 0 * * *", action := "log", args := ["hello"] }]

/-- A world in which the configuration loads and every component starts. -/
def sampleEnv : Env :=
  { flags := { maxprocs := 4, configPath := ".", devbuild := false, v := 0 }
    version := "1.0.0"
    ReadInConfig := .ok sampleConfig
    ReadSchedule := fun _ => (sampleSchedule, none)
    ResolveUDPAddr := fun address => (address, none)
    Connect := fun _ _ => none
    Exec := fun _ _ => none }

/-- The sample world with another configuration. -/
def envWith (cfg : Config) : Env :=
  { sampleEnv with ReadInConfig := .ok cfg }

/-- The error used by the failing worlds below. -/
def sampleError : GoError :=
  { msg := "boom" }

/-- The sample world, except that the schedule cannot be read. -/
def envScheduleFails : Env :=
  { sampleEnv with ReadSchedule := fun _ => ([], some sampleError) }

/-- The sample world, except that the process cannot be launched. -/
def envExecFails : Env :=
  { sampleEnv with Exec := fun _ _ => some sampleError }

/-- The sample world, except that the RCON connection is refused. -/
def envConnectFails : Env :=
  { sampleEnv with Connect := fun _ _ => some sampleError }

/-- The sample world, except that the RCON address does not resolve. -/
def envResolveFails : Env :=
  { sampleEnv with ResolveUDPAddr := fun address => (address, some sampleError) }

/-- The sample configuration with the scheduler disabled. -/
def configNoScheduler : Config :=
  { sampleConfig with schedulerEnabled := false }

/-- The sample configuration with only the scheduler enabled. -/
def configOnlyScheduler : Config :=
  { sampleConfig with watcherEnabled := false, armaEnabled := false }

/-- A schedule whose entry names an action that nobody registers. -/
def unknownActionSchedule : Schedule :=
  [{ trigger := "0 0 * * *", action := "nope", args := [] }]

/-- A world with only the scheduler enabled and the schedule above. -/
def envUnknownAction : Env :=
  { sampleEnv with
    ReadInConfig := .ok configOnlyScheduler
    ReadSchedule := fun _ => (unknownActionSchedule, none) }

/-- The scheduler `newScheduler` builds in `envUnknownAction`. -/
def unknownActionScheduler : Scheduler :=
  { schedule := unknownActionSchedule, Funcs := [("log", .logCmd)] }

/-! ## `path`: facts about `Split` and `Dir` -/

theorem path.lastIndexByteFrom_spec (c : Char) :
    ∀ (s : List Char) (i : Nat) (acc : Int),
      (c ∉ s → path.lastIndexByteFrom c s i acc = acc) ∧
      (c ∈ s → ∃ k : Nat, path.lastIndexByteFrom c s i acc = ((i + k : Nat) : Int) ∧
        c ∉ s.drop (k + 1)) := by
  intro s
  induction s with
  | nil => intro i acc; simp [path.lastIndexByteFrom]
  | cons x xs ih =>
    intro i acc
    constructor
    · intro h
      have hx : x ≠ c := fun hxc => h (by simp [hxc])
      have hxs : c ∉ xs := fun hm => h (List.mem_cons_of_mem _ hm)
      simp only [path.lastIndexByteFrom, if_neg hx]
      exact (ih (i + 1) acc).1 hxs
    · intro _
      by_cases hxs : c ∈ xs
      · obtain ⟨k, hk, hd⟩ := (ih (i + 1) (if x = c then (i : Int) else acc)).2 hxs
        refine ⟨k + 1, ?_, ?_⟩
        · simp only [path.lastIndexByteFrom]
          rw [hk]
          congr 1
          omega
        · simpa using hd
      · refine ⟨0, ?_, ?_⟩
        · have hx : x = c := by
            rcases List.mem_cons.1 ‹c ∈ x :: xs› with h | h
            · exact h.symm
            · exact absurd h hxs
          simp only [path.lastIndexByteFrom]
          rw [(ih (i + 1) _).1 hxs, if_pos hx]
          simp
        · simpa using hxs

theorem path.Split_append (p : List Char) : (path.Split p).1 ++ (path.Split p).2 = p := by
  simp [path.Split]

theorem path.Split_file_no_slash (p : List Char) : '/' ∉ (path.Split p).2 := by
  by_cases h : '/' ∈ p
  · obtain ⟨k, hk, hd⟩ := (path.lastIndexByteFrom_spec '/' p 0 (-1)).2 h
    simp only [path.Split, path.lastIndexByte, hk]
    have : ((((0 + k : Nat) : Int)) + 1).toNat = k + 1 := by omega
    rw [this]
    exact hd
  · have h0 := (path.lastIndexByteFrom_spec '/' p 0 (-1)).1 h
    simp only [path.Split, path.lastIndexByte, h0]
    simpa using h

theorem path.Dir_of_no_slash (p : String) (h : '/' ∉ p.data) : path.Dir p = "." := by
  have h0 := (path.lastIndexByteFrom_spec '/' p.data 0 (-1)).1 h
  simp only [path.Dir, path.Split, path.lastIndexByte, h0]
  rfl

/-- C10: the `Process` that `newProcWatch` hands to `watcher.New` (and that the
returned watcher holds) has `ExecDir` equal to `watcher.dir` when that is not
empty and to `path.Dir(watcher.exec)` when it is empty, and `ExecPath` and
`ExecParam` equal to the configured `watcher.exec` and `watcher.params`.
`path.Dir` is the cleaned part of the path that `Split` leaves when it removes
the last slash-separated element, and it is `.` for a path without a slash. -/
theorem newProcWatch_process_fields (cfg : Config) (env : Env) (stderr stdout : Option Ref) :
    ∃ proc : Process,
      (newProcWatch cfg env stderr stdout).1.filterMap Event.newProcess = [proc] ∧
      (newProcWatch cfg env stderr stdout).2.1.proc = proc ∧
      (cfg.watcherDir ≠ "" → proc.ExecDir = cfg.watcherDir) ∧
      (cfg.watcherDir = "" → proc.ExecDir = path.Dir cfg.watcherExec) ∧
      proc.ExecPath = cfg.watcherExec ∧ proc.ExecParam = cfg.watcherParams ∧
      path.Dir cfg.watcherExec = String.mk (path.Clean (path.Split cfg.watcherExec.data).1) ∧
      (path.Split cfg.watcherExec.data).1 ++ (path.Split cfg.watcherExec.data).2
        = cfg.watcherExec.data ∧
      '/' ∉ (path.Split cfg.watcherExec.data).2 ∧
      ('/' ∉ cfg.watcherExec.data → path.Dir cfg.watcherExec = ".") := by
  refine ⟨{ ExecPath := cfg.watcherExec,
            ExecDir := if cfg.watcherDir = "" then path.Dir cfg.watcherExec else cfg.watcherDir,
            ExecParam := cfg.watcherParams, StdErr := stderr, StdOut := stdout },
    ?_, ?_, ?_, ?_, rfl, rfl, rfl, path.Split_append _, path.Split_file_no_slash _,
    path.Dir_of_no_slash _⟩
  · unfold newProcWatch
    simp only []
    split
    · simp [Event.newProcess]
    · split <;> simp [Event.newProcess]
  · unfold newProcWatch
    simp only []
    split
    · rename_i h
      simp only [Watcher.Exec, Watcher.New] at h
      split at h <;> simp at h
      rw [← h.1]
    · rename_i h
      simp only [Watcher.Exec, Watcher.New] at h
      split at h <;> simp at h
      split <;> simp [Watcher.Watch, ← h]
  · intro h; simp [h]
  · intro h; simp [h]

/-- Witness for C10: with `watcher.dir` empty and `watcher.exec` set to
`/srv/arma3/arma3server` the process runs in `/srv/arma3`, with `watcher.dir`
set to `/opt` it runs in `/opt`, and a bare program name resolves to `.`. -/
theorem newProcWatch_process_fields_witness :
    (∃ proc : Process,
      (newProcWatch sampleConfig sampleEnv none none).1.filterMap Event.newProcess = [proc] ∧
      proc.ExecDir = "/srv/arma3") ∧
    (∃ proc : Process,
      (newProcWatch { sampleConfig with watcherDir := "/opt" } sampleEnv none none).1.filterMap
        Event.newProcess = [proc] ∧
      proc.ExecDir = "/opt") ∧
    path.Dir "arma3server" = "." := by
  refine ⟨?_, ?_, ?_⟩
  · obtain ⟨proc, h1, _, _, h4, _⟩ :=
      newProcWatch_process_fields sampleConfig sampleEnv none none
    exact ⟨proc, h1, (h4 (by decide)).trans (by decide)⟩
  · obtain ⟨proc, h1, _, h3, _⟩ :=
      newProcWatch_process_fields { sampleConfig with watcherDir := "/opt" } sampleEnv none none
    exact ⟨proc, h1, (h3 (by decide)).trans (by decide)⟩
  · obtain ⟨_, _, _, _, _, _, _, _, _, _, h⟩ :=
      newProcWatch_process_fields { sampleConfig with watcherExec := "arma3server" } sampleEnv
        none none
    exact h (by decide)

/-! ## `newProcWatch` and the exit monitor -/

theorem Watcher.processExits_of_no_monitor (env : Env) (w : Watcher) (h : w.monitor = none) :
    ∀ n, (Watcher.processExits env w n).monitor = none ∧
      (Watcher.processExits env w n).execCalls = w.execCalls := by
  intro n
  induction n with
  | zero => exact ⟨h, rfl⟩
  | succ n ih =>
    obtain ⟨hm, hc⟩ := ih
    simp only [Watcher.processExits, Watcher.processExit]
    split
    · exact ⟨hm, hc⟩
    · simp only [hm]
      exact ⟨trivial, hc⟩

/-- C6: `newProcWatch` calls `Watch` exactly once, with `RestartAndWatch` as the
exit handler, when the launch `Exec` of the process it built succeeds and
`watcher.autoRestart` is true.  When `watcher.autoRestart` is false or the
launch fails it never calls `Watch`, and then no termination of the process
leads to another `Exec`: the launch in `newProcWatch` stays the only one. -/
theorem newProcWatch_watch_iff (cfg : Config) (env : Env) (stderr stdout : Option Ref) :
    ∃ proc : Process,
      (newProcWatch cfg env stderr stdout).1.filterMap Event.newProcess = [proc] ∧
      (env.Exec proc 0 = none ∧ cfg.watcherAutoRestart = true →
        (newProcWatch cfg env stderr stdout).1.filterMap Event.watchHandler
          = [ExitHandler.RestartAndWatch]) ∧
      (cfg.watcherAutoRestart = false ∨ env.Exec proc 0 ≠ none →
        (newProcWatch cfg env stderr stdout).1.filterMap Event.watchHandler = [] ∧
        ∀ n, (Watcher.processExits env (newProcWatch cfg env stderr stdout).2.1 n).execCalls
          = 1) := by
  refine ⟨{ ExecPath := cfg.watcherExec,
            ExecDir := if cfg.watcherDir = "" then path.Dir cfg.watcherExec else cfg.watcherDir,
            ExecParam := cfg.watcherParams, StdErr := stderr, StdOut := stdout }, ?_, ?_, ?_⟩
  · unfold newProcWatch
    simp only []
    split
    · simp [Event.newProcess]
    · split <;> simp [Event.newProcess]
  · rintro ⟨hx, ha⟩
    simp [newProcWatch, Watcher.Exec, Watcher.New, hx, ha, Event.watchHandler]
  · intro h
    by_cases hx : env.Exec (Process.mk cfg.watcherExec
        (if cfg.watcherDir = "" then path.Dir cfg.watcherExec else cfg.watcherDir)
        cfg.watcherParams stderr stdout) 0 = none
    · have ha : cfg.watcherAutoRestart = false := by
        rcases h with h | h
        · exact h
        · exact absurd hx h
      constructor
      · simp [newProcWatch, Watcher.Exec, Watcher.New, hx, ha, Event.watchHandler]
      · intro n
        have hw : (newProcWatch cfg env stderr stdout).2.1 =
            Watcher.mk (Process.mk cfg.watcherExec
              (if cfg.watcherDir = "" then path.Dir cfg.watcherExec else cfg.watcherDir)
              cfg.watcherParams stderr stdout) .Running none 1 := by
          simp [newProcWatch, Watcher.Exec, Watcher.New, hx, ha]
        rw [hw]
        exact (Watcher.processExits_of_no_monitor env _ rfl n).2
    · obtain ⟨e, he⟩ := Option.ne_none_iff_exists'.1 hx
      constructor
      · simp [newProcWatch, Watcher.Exec, Watcher.New, he, Event.watchHandler]
      · intro n
        have hw : (newProcWatch cfg env stderr stdout).2.1 =
            Watcher.mk (Process.mk cfg.watcherExec
              (if cfg.watcherDir = "" then path.Dir cfg.watcherExec else cfg.watcherDir)
              cfg.watcherParams stderr stdout) .Stopped none 1 := by
          simp [newProcWatch, Watcher.Exec, Watcher.New, he]
        rw [hw]
        exact (Watcher.processExits_of_no_monitor env _ rfl n).2

/-- Witness for C6: in the sample world with auto-restart `Watch` is called once
with `RestartAndWatch`; without auto-restart it is not called and three
terminations of the process leave the number of launches at one. -/
theorem newProcWatch_watch_iff_witness :
    (newProcWatch sampleConfig sampleEnv none none).1.filterMap Event.watchHandler
      = [ExitHandler.RestartAndWatch] ∧
    ((newProcWatch { sampleConfig with watcherAutoRestart := false } sampleEnv none
        none).1.filterMap Event.watchHandler = [] ∧
      (Watcher.processExits sampleEnv
        (newProcWatch { sampleConfig with watcherAutoRestart := false } sampleEnv none none).2.1
        3).execCalls = 1) := by
  constructor
  · obtain ⟨proc, _, h, _⟩ := newProcWatch_watch_iff sampleConfig sampleEnv none none
    exact h ⟨rfl, rfl⟩
  · obtain ⟨proc, _, _, h⟩ :=
      newProcWatch_watch_iff { sampleConfig with watcherAutoRestart := false } sampleEnv none none
    exact ⟨(h (Or.inl rfl)).1, (h (Or.inl rfl)).2 3⟩

/-! ## `newScheduler` -/

/-- C8: when `ReadSchedule` loads the schedule, `newScheduler` calls
`scheduler.New` once, with a registry in which `log` is bound to `logCmd`, and
`logCmd` invoked with `s` emits exactly one log entry, of text `s`; it returns
the scheduler built from that schedule and registry, and no error.  When
`ReadSchedule` fails, `newScheduler` returns that error and no scheduler, and
does not call `scheduler.New`. -/
theorem newScheduler_registry (cfg : Config) (env : Env) :
    (∀ schedule, env.ReadSchedule cfg.schedulerPath = (schedule, none) →
      ∃ funcs : ScheduleFuncs,
        (newScheduler cfg env).1.filterMap Event.newRegistry = [funcs] ∧
        Event.schedulerNew schedule funcs ∈ (newScheduler cfg env).1 ∧
        ScheduleFuncs.get funcs "log" = some Func.logCmd ∧
        (∀ s, Func.invoke Func.logCmd s = [{ severity := .info, text := s }]) ∧
        (newScheduler cfg env).2 = (some (Scheduler.New schedule funcs), none)) ∧
    (∀ schedule e, env.ReadSchedule cfg.schedulerPath = (schedule, some e) →
      (newScheduler cfg env).2 = (none, some e) ∧
      (newScheduler cfg env).1.filterMap Event.newRegistry = []) := by
  constructor
  · intro schedule h
    refine ⟨ScheduleFuncs.set [] "log" .logCmd, ?_, ?_, ?_, ?_, ?_⟩
    · simp [newScheduler, h, Event.newRegistry]
    · simp [newScheduler, h]
    · simp [ScheduleFuncs.set, ScheduleFuncs.get]
    · intro s
      rfl
    · simp [newScheduler, h]
  · intro schedule e h
    simp [newScheduler, h, Event.newRegistry]

/-- Witness for C8: in the sample world the registry handed to `scheduler.New`
binds `log`; in a world where the schedule cannot be read the error comes
back and there is no scheduler. -/
theorem newScheduler_registry_witness :
    (∃ funcs : ScheduleFuncs,
      (newScheduler sampleConfig sampleEnv).1.filterMap Event.newRegistry = [funcs] ∧
      ScheduleFuncs.get funcs "log" = some Func.logCmd) ∧
    (newScheduler sampleConfig
      { sampleEnv with ReadSchedule := fun _ => ([], some sampleError) }).2
      = (none, some sampleError) := by
  constructor
  · obtain ⟨funcs, h1, _, h3, _⟩ :=
      (newScheduler_registry sampleConfig sampleEnv).1 sampleSchedule rfl
    exact ⟨funcs, h1, h3⟩
  · exact ((newScheduler_registry sampleConfig
      { sampleEnv with ReadSchedule := fun _ => ([], some sampleError) }).2 [] sampleError rfl).1

/-! ## The phases of `do` -/

theorem Event.startupUpTo_mono {c c2 : Component} {ev : Event} (h : ev.startupUpTo c)
    (hc : c.rank ≤ c2.rank) : ev.startupUpTo c2 :=
  ⟨h.1, fun c3 h3 => le_trans (h.2.1 c3 h3) hc, h.2.2⟩

theorem newScheduler_events (cfg : Config) (env : Env) :
    ∀ ev ∈ (newScheduler cfg env).1, ev.startupUpTo .scheduler ∧ ev.schedCall = none := by
  unfold newScheduler
  simp only []
  split <;>
    simp [Event.startupUpTo, Event.refs, Event.component, Event.schedCall, Component.rank]

theorem newScheduler_sched (cfg : Config) (env : Env) (h : (newScheduler cfg env).2.2 = none) :
    ∃ s, (newScheduler cfg env).2.1 = some s := by
  unfold newScheduler at h ⊢
  simp only [] at h ⊢
  split at h
  · simp at h
  · rename_i h2
    simp [h2]

theorem newProcWatch_events (cfg : Config) (env : Env) (se so : Option Ref)
    (hse : se ≠ some .quit) (hso : so ≠ some .quit) :
    ∀ ev ∈ (newProcWatch cfg env se so).1, ev.startupUpTo .watcher ∧ ev.schedCall = none := by
  have hq : Ref.quit ∉ se.toList ++ so.toList := by
    simp only [List.mem_append, Option.mem_toList, Option.mem_def, not_or]
    exact ⟨hse, hso⟩
  unfold newProcWatch
  simp only []
  split
  · simp [Event.startupUpTo, Event.refs, Event.component, Event.schedCall, Component.rank]
    simpa using hq
  · split <;>
      simp [Event.startupUpTo, Event.refs, Event.component, Event.schedCall, Component.rank] <;>
      simpa using hq

theorem newRcon_events (cfg : Config) (env : Env) :
    ∀ ev ∈ (newRcon cfg env).1, ev.startupUpTo .rcon ∧ ev.schedCall = none := by
  unfold newRcon
  simp only []
  split
  · simp [Event.startupUpTo, Event.refs, Event.component, Event.schedCall, Component.rank]
  · split <;>
      simp [Event.startupUpTo, Event.refs, Event.component, Event.schedCall, Component.rank]

theorem newRcon_client (cfg : Config) (env : Env) (h : (newRcon cfg env).2.2 = none) :
    ∃ c, (newRcon cfg env).2.1 = some c := by
  rcases h1 : env.ResolveUDPAddr (cfg.armaIp ++ ":" ++ cfg.armaPort) with ⟨addr, _ | e⟩
  · rcases h2 : env.Connect (Connection.mk addr cfg.armaKeepAliveTimer
        cfg.armaKeepAliveTolerance) (Credentials.mk "" cfg.armaPassword) with _ | e
    · simp [newRcon, h1, h2]
    · simp [newRcon, h1, h2] at h
  · simp [newRcon, h1] at h

theorem doHeader_events (env : Env) (cfg : Config) (c : Component) :
    ∀ ev ∈ doHeader env cfg, ev.startupUpTo c ∧ ev.schedCall = none := by
  unfold doHeader readingConfigLog
  intro ev hev
  simp only [List.mem_append, List.mem_singleton] at hev
  rcases hev with (((hev | hev) | hev) | hev) | hev
  · split at hev
    · simp at hev
      subst hev
      simp [Event.startupUpTo, Event.refs, Event.component, Event.schedCall]
    · simp at hev
  · split at hev
    · simp at hev
      rcases hev with rfl | rfl <;>
        simp [Event.startupUpTo, Event.refs, Event.component, Event.schedCall]
    · simp at hev
  · subst hev
    simp [Event.startupUpTo, Event.refs, Event.component, Event.schedCall]
  · split at hev
    · simp at hev
      subst hev
      simp [Event.startupUpTo, Event.refs, Event.component, Event.schedCall]
    · simp at hev
  · subst hev
    simp [Event.startupUpTo, Event.refs, Event.component, Event.schedCall]
theorem doFinish_some (q : Option Int) (events : List Event) (s : Scheduler) :
    doFinish q events (some s) =
      (events ++ [.BuildEvents (some s), .Start (some s)] ++
          (match q with
            | none => []
            | some v => [.recvQuit v]),
        match q with
        | none => .blocked
        | some _ => .returned none) := by
  cases q with
  | none => simp [doFinish]
  | some v => by_cases hv : v = 1 <;> simp [doFinish, hv]

theorem doFinish_none (q : Option Int) (events : List Event) :
    doFinish q events none = (events ++ [.BuildEvents none], .panicked "nil pointer dereference") :=
  rfl

theorem doRcon_ok (cfg : Config) (env : Env) (q : Option Int) (events : List Event)
    (sched : Option Scheduler) (hs : cfg.schedulerEnabled = true → ∃ s, sched = some s)
    (hr : cfg.armaEnabled = true → (newRcon cfg env).2.2 = none) :
    ∃ events2 sched2, doRcon cfg env q events sched = doFinish q (events ++ events2) sched2 ∧
      (cfg.schedulerEnabled = true → ∃ s, sched2 = some s) ∧
      (sched = none → sched2 = none) ∧
      (∀ ev ∈ events2, ev.startupUpTo .rcon) ∧
      events2.filterMap Event.schedCall =
        (if cfg.armaEnabled = true ∧ cfg.schedulerEnabled = true then [.UpdateFuncs .rcon]
          else []) := by
  by_cases ha : cfg.armaEnabled = true
  · have hr2 := hr ha
    obtain ⟨c, hc⟩ := newRcon_client cfg env hr2
    have hev := newRcon_events cfg env
    rcases hn : newRcon cfg env with ⟨evs, client, err⟩
    rw [hn] at hr2 hc hev
    simp only at hr2 hc hev
    subst hr2 hc
    have hnil : evs.filterMap Event.schedCall = [] :=
      List.filterMap_eq_nil_iff.2 fun ev h => (hev ev h).2
    by_cases hs2 : cfg.schedulerEnabled = true
    · obtain ⟨s, rfl⟩ := hs hs2
      refine ⟨[.newRcon] ++ evs ++ [.rconExec "say -1 PlayNet GoRcon-ArmA Connected",
        .rconInjectExtFuncs s.Funcs,
        .UpdateFuncs (some s) .rcon (Client.InjectExtFuncs c s.Funcs)],
        some (Scheduler.UpdateFuncs s (Client.InjectExtFuncs c s.Funcs)), ?_, ?_, ?_, ?_, ?_⟩
      · simp [doRcon, ha, hs2, hn]
      · intro _
        exact ⟨_, rfl⟩
      · intro h
        simp at h
      · intro ev h
        simp only [List.mem_append, List.mem_cons, List.mem_singleton, List.not_mem_nil,
          or_false] at h
        rcases h with (rfl | h) | rfl | rfl | rfl
        · simp [Event.startupUpTo, Event.refs, Event.component, Component.rank]
        · exact (hev ev h).1
        all_goals simp [Event.startupUpTo, Event.refs, Event.component]
      · simp [ha, hs2, hnil, Event.schedCall]
    · refine ⟨[.newRcon] ++ evs ++ [.rconExec "say -1 PlayNet GoRcon-ArmA Connected"],
        sched, ?_, ?_, id, ?_, ?_⟩
      · simp [doRcon, ha, hs2, hn]
      · intro h
        exact absurd h hs2
      · intro ev h
        simp only [List.mem_append, List.mem_cons, List.mem_singleton, List.not_mem_nil,
          or_false] at h
        rcases h with (rfl | h) | rfl
        · simp [Event.startupUpTo, Event.refs, Event.component, Component.rank]
        · exact (hev ev h).1
        · simp [Event.startupUpTo, Event.refs, Event.component]
      · simp [ha, hs2, hnil, Event.schedCall]
  · refine ⟨[], sched, ?_, hs, id, ?_, ?_⟩
    · simp [doRcon, ha]
    · simp
    · simp [ha]

theorem doRcon_fail (cfg : Config) (env : Env) (q : Option Int) (events : List Event)
    (sched : Option Scheduler) (e : GoError) (ha : cfg.armaEnabled = true)
    (he : (newRcon cfg env).2.2 = some e) :
    ∃ events2, doRcon cfg env q events sched = (events ++ events2, .returned (some e)) ∧
      (∀ ev ∈ events2, ev.startupUpTo .rcon) ∧ events2.filterMap Event.schedCall = [] := by
  have hev := newRcon_events cfg env
  rcases hn : newRcon cfg env with ⟨evs, client, err⟩
  rw [hn] at he hev
  simp only at he hev
  subst he
  refine ⟨[.newRcon] ++ evs, ?_, ?_, ?_⟩
  · simp [doRcon, ha, hn]
  · intro ev h
    simp only [List.mem_append, List.mem_singleton] at h
    rcases h with rfl | h
    · simp [Event.startupUpTo, Event.refs, Event.component, Component.rank]
    · exact (hev ev h).1
  · simp only [List.filterMap_append, List.append_eq_nil]
    exact ⟨by simp [Event.schedCall], List.filterMap_eq_nil_iff.2 fun ev h => (hev ev h).2⟩

theorem consoleWriter_ne_quit (cfg : Config) : consoleWriter cfg ≠ some .quit := by
  unfold consoleWriter
  split <;> simp

theorem doWatch_ok (cfg : Config) (env : Env) (q : Option Int) (events : List Event)
    (sched : Option Scheduler) (hs : cfg.schedulerEnabled = true → ∃ s, sched = some s)
    (hw : cfg.watcherEnabled = true →
      (newProcWatch cfg env (consoleWriter cfg) (consoleWriter cfg)).2.2 = none) :
    ∃ events2 sched2,
      doWatch cfg env q events sched = doRcon cfg env q (events ++ events2) sched2 ∧
      (cfg.schedulerEnabled = true → ∃ s, sched2 = some s) ∧
      (sched = none → sched2 = none) ∧
      (∀ ev ∈ events2, ev.startupUpTo .watcher) ∧
      events2.filterMap Event.schedCall =
        (if cfg.watcherEnabled = true ∧ cfg.schedulerEnabled = true then [.UpdateFuncs .watcher]
          else []) := by
  by_cases ha : cfg.watcherEnabled = true
  · have hw2 := hw ha
    have hev := newProcWatch_events cfg env (consoleWriter cfg) (consoleWriter cfg)
      (consoleWriter_ne_quit cfg) (consoleWriter_ne_quit cfg)
    rcases hn : newProcWatch cfg env (consoleWriter cfg) (consoleWriter cfg) with ⟨evs, w, err⟩
    rw [hn] at hw2 hev
    simp only at hw2 hev
    subst hw2
    have hnil : evs.filterMap Event.schedCall = [] :=
      List.filterMap_eq_nil_iff.2 fun ev h => (hev ev h).2
    unfold consoleWriter at hn
    by_cases hs2 : cfg.schedulerEnabled = true
    · obtain ⟨s, rfl⟩ := hs hs2
      refine ⟨[.newProcWatch (consoleWriter cfg) (consoleWriter cfg)] ++ evs ++
        [.watcherInjectExtFuncs s.Funcs,
          .UpdateFuncs (some s) .watcher (Watcher.InjectExtFuncs w s.Funcs)],
        some (Scheduler.UpdateFuncs s (Watcher.InjectExtFuncs w s.Funcs)), ?_, ?_, ?_, ?_, ?_⟩
      · simp [doWatch, ha, hs2, hn, consoleWriter]
      · intro _
        exact ⟨_, rfl⟩
      · intro h
        simp at h
      · intro ev h
        simp only [List.mem_append, List.mem_cons, List.mem_singleton, List.not_mem_nil,
          or_false] at h
        rcases h with (rfl | h) | rfl | rfl
        · simp [Event.startupUpTo, Event.refs, Event.component, Component.rank, consoleWriter]
        · exact (hev ev h).1
        all_goals simp [Event.startupUpTo, Event.refs, Event.component]
      · simp [ha, hs2, hnil, Event.schedCall]
    · refine ⟨[.newProcWatch (consoleWriter cfg) (consoleWriter cfg)] ++ evs, sched,
        ?_, ?_, id, ?_, ?_⟩
      · simp [doWatch, ha, hs2, hn, consoleWriter]
      · intro h
        exact absurd h hs2
      · intro ev h
        simp only [List.mem_append, List.mem_singleton] at h
        rcases h with rfl | h
        · simp [Event.startupUpTo, Event.refs, Event.component, Component.rank, consoleWriter]
        · exact (hev ev h).1
      · simp [ha, hs2, hnil, Event.schedCall]
  · refine ⟨[], sched, ?_, hs, id, ?_, ?_⟩
    · simp [doWatch, ha]
    · simp
    · simp [ha]

theorem doWatch_fail (cfg : Config) (env : Env) (q : Option Int) (events : List Event)
    (sched : Option Scheduler) (e : GoError) (ha : cfg.watcherEnabled = true)
    (he : (newProcWatch cfg env (consoleWriter cfg) (consoleWriter cfg)).2.2 = some e) :
    ∃ events2, doWatch cfg env q events sched = (events ++ events2, .returned (some e)) ∧
      (∀ ev ∈ events2, ev.startupUpTo .watcher) ∧ events2.filterMap Event.schedCall = [] := by
  have hev := newProcWatch_events cfg env (consoleWriter cfg) (consoleWriter cfg)
    (consoleWriter_ne_quit cfg) (consoleWriter_ne_quit cfg)
  rcases hn : newProcWatch cfg env (consoleWriter cfg) (consoleWriter cfg) with ⟨evs, w, err⟩
  rw [hn] at he hev
  simp only at he hev
  subst he
  unfold consoleWriter at hn
  refine ⟨[.newProcWatch (consoleWriter cfg) (consoleWriter cfg)] ++ evs, ?_, ?_, ?_⟩
  · simp [doWatch, ha, hn, consoleWriter]
  · intro ev h
    simp only [List.mem_append, List.mem_singleton] at h
    rcases h with rfl | h
    · simp [Event.startupUpTo, Event.refs, Event.component, Component.rank, consoleWriter]
    · exact (hev ev h).1
  · simp only [List.filterMap_append, List.append_eq_nil]
    exact ⟨by simp [Event.schedCall], List.filterMap_eq_nil_iff.2 fun ev h => (hev ev h).2⟩
theorem do_config_error (env : Env) (q : Option Int) (err : GoError)
    (hcfg : env.ReadInConfig = .error err) :
    do_ env q =
      (readingConfigLog env ++
        [.glog { severity := .error, text := "Loading Config failed with Error: " ++ err.msg }],
        .panicked ("Loading Config failed with Error: " ++ err.msg)) := by
  simp [do_, getConfig, hcfg]

theorem do_ok (env : Env) (cfg : Config) (q : Option Int) (hcfg : env.ReadInConfig = .ok cfg)
    (hsch : cfg.schedulerEnabled = true → (newScheduler cfg env).2.2 = none) :
    ∃ events sched, do_ env q = doWatch cfg env q events sched ∧
      (cfg.schedulerEnabled = true → ∃ s, sched = some s) ∧
      (cfg.schedulerEnabled = false → sched = none) ∧
      (∀ ev ∈ events, ev.startupUpTo .scheduler) ∧ events.filterMap Event.schedCall = [] := by
  have hh := doHeader_events env cfg .scheduler
  have hhnil : (doHeader env cfg).filterMap Event.schedCall = [] :=
    List.filterMap_eq_nil_iff.2 fun ev h => (hh ev h).2
  by_cases ha : cfg.schedulerEnabled = true
  · have hs2 := hsch ha
    obtain ⟨s, hs⟩ := newScheduler_sched cfg env hs2
    have hev := newScheduler_events cfg env
    rcases hn : newScheduler cfg env with ⟨evs, sched, err⟩
    rw [hn] at hs2 hs hev
    simp only at hs2 hs hev
    subst hs2 hs
    refine ⟨doHeader env cfg ++ [.newScheduler] ++ evs, some s, ?_, ?_, ?_, ?_, ?_⟩
    · simp [do_, getConfig, hcfg, ha, hn, doHeader]
    · intro _
      exact ⟨_, rfl⟩
    · intro h
      rw [ha] at h
      exact absurd h (by decide)
    · intro ev h
      simp only [List.mem_append, List.mem_singleton] at h
      rcases h with (h | rfl) | h
      · exact (hh ev h).1
      · simp [Event.startupUpTo, Event.refs, Event.component, Component.rank]
      · exact (hev ev h).1
    · simp only [List.filterMap_append, List.append_eq_nil]
      exact ⟨⟨hhnil, by simp [Event.schedCall]⟩,
        List.filterMap_eq_nil_iff.2 fun ev h => (hev ev h).2⟩
  · refine ⟨doHeader env cfg, none, ?_, ?_, fun _ => rfl, ?_, hhnil⟩
    · simp [do_, getConfig, hcfg, ha, doHeader]
    · intro h
      exact absurd h ha
    · intro ev h
      exact (hh ev h).1

theorem do_fail (env : Env) (cfg : Config) (q : Option Int) (e : GoError)
    (hcfg : env.ReadInConfig = .ok cfg) (ha : cfg.schedulerEnabled = true)
    (he : (newScheduler cfg env).2.2 = some e) :
    ∃ events, do_ env q = (events, .returned (some e)) ∧
      (∀ ev ∈ events, ev.startupUpTo .scheduler) ∧ events.filterMap Event.schedCall = [] := by
  have hh := doHeader_events env cfg .scheduler
  have hev := newScheduler_events cfg env
  rcases hn : newScheduler cfg env with ⟨evs, sched, err⟩
  rw [hn] at he hev
  simp only at he hev
  subst he
  refine ⟨doHeader env cfg ++ [.newScheduler] ++ evs, ?_, ?_, ?_⟩
  · simp [do_, getConfig, hcfg, ha, hn, doHeader]
  · intro ev h
    simp only [List.mem_append, List.mem_singleton] at h
    rcases h with (h | rfl) | h
    · exact (hh ev h).1
    · simp [Event.startupUpTo, Event.refs, Event.component, Component.rank]
    · exact (hev ev h).1
  · simp only [List.filterMap_append, List.append_eq_nil]
    exact ⟨⟨List.filterMap_eq_nil_iff.2 fun ev h => (hh ev h).2, by simp [Event.schedCall]⟩,
      List.filterMap_eq_nil_iff.2 fun ev h => (hev ev h).2⟩

/-- Every run of `do` with a loaded configuration either stops at the first
enabled component that fails to come up, or reaches `BuildEvents`. -/
theorem do_cases (env : Env) (cfg : Config) (q : Option Int)
    (hcfg : env.ReadInConfig = .ok cfg) :
    (∃ c e events, constructorFails cfg env c e ∧ do_ env q = (events, .returned (some e)) ∧
      (∀ ev ∈ events, ev.startupUpTo c) ∧
      events.filterMap Event.schedCall <+: updateCalls cfg) ∨
    (startupSucceeds cfg env ∧ ∃ events sched, do_ env q = doFinish q events sched ∧
      (cfg.schedulerEnabled = true → ∃ s, sched = some s) ∧
      (cfg.schedulerEnabled = false → sched = none) ∧
      (∀ ev ∈ events, ev.startupUpTo .rcon) ∧
      events.filterMap Event.schedCall = updateCalls cfg) := by
  by_cases h1 : cfg.schedulerEnabled = true → (newScheduler cfg env).2.2 = none
  · obtain ⟨ev1, sched1, e1, hs1, hn1, hp1, hc1⟩ := do_ok env cfg q hcfg h1
    by_cases h2 : cfg.watcherEnabled = true →
        (newProcWatch cfg env (consoleWriter cfg) (consoleWriter cfg)).2.2 = none
    · obtain ⟨ev2, sched2, e2, hs2, hn2, hp2, hc2⟩ := doWatch_ok cfg env q ev1 sched1 hs1 h2
      by_cases h3 : cfg.armaEnabled = true → (newRcon cfg env).2.2 = none
      · obtain ⟨ev3, sched3, e3, hs3, hn3, hp3, hc3⟩ :=
          doRcon_ok cfg env q (ev1 ++ ev2) sched2 hs2 h3
        right
        refine ⟨⟨h1, h2, h3⟩, ev1 ++ ev2 ++ ev3, sched3, by rw [e1, e2, e3], hs3,
          ?_, ?_, ?_⟩
        · exact fun h => hn3 (hn2 (hn1 h))
        · intro ev h
          simp only [List.mem_append] at h
          rcases h with (h | h) | h
          · exact Event.startupUpTo_mono (hp1 ev h) (by decide)
          · exact Event.startupUpTo_mono (hp2 ev h) (by decide)
          · exact hp3 ev h
        · simp [List.filterMap_append, hc1, hc2, hc3, updateCalls]
      · obtain ⟨ha, hne⟩ := Classical.not_imp.1 h3
        obtain ⟨e, he⟩ := Option.ne_none_iff_exists'.1 hne
        obtain ⟨ev3, e3, hp3, hc3⟩ := doRcon_fail cfg env q (ev1 ++ ev2) sched2 e ha he
        left
        refine ⟨.rcon, e, ev1 ++ ev2 ++ ev3, ⟨h1, h2, ha, he⟩, by rw [e1, e2, e3], ?_, ?_⟩
        · intro ev h
          simp only [List.mem_append] at h
          rcases h with (h | h) | h
          · exact Event.startupUpTo_mono (hp1 ev h) (by decide)
          · exact Event.startupUpTo_mono (hp2 ev h) (by decide)
          · exact hp3 ev h
        · simp only [List.filterMap_append, hc1, hc2, hc3, updateCalls, List.nil_append,
            List.append_nil]
          exact List.prefix_append _ _
    · obtain ⟨ha, hne⟩ := Classical.not_imp.1 h2
      obtain ⟨e, he⟩ := Option.ne_none_iff_exists'.1 hne
      obtain ⟨ev2, e2, hp2, hc2⟩ := doWatch_fail cfg env q ev1 sched1 e ha he
      left
      refine ⟨.watcher, e, ev1 ++ ev2, ⟨h1, ha, he⟩, by rw [e1, e2], ?_, ?_⟩
      · intro ev h
        simp only [List.mem_append] at h
        rcases h with h | h
        · exact Event.startupUpTo_mono (hp1 ev h) (by decide)
        · exact hp2 ev h
      · simp only [List.filterMap_append, hc1, hc2, List.nil_append]
        exact List.nil_prefix
  · obtain ⟨ha, hne⟩ := Classical.not_imp.1 h1
    obtain ⟨e, he⟩ := Option.ne_none_iff_exists'.1 hne
    obtain ⟨ev1, e1, hp1, hc1⟩ := do_fail env cfg q e hcfg ha he
    left
    refine ⟨.scheduler, e, ev1, ⟨ha, he⟩, e1, hp1, ?_⟩
    rw [hc1]
    exact List.nil_prefix

theorem constructorFails_unique (cfg : Config) (env : Env) {c c2 : Component} {e e2 : GoError}
    (h : constructorFails cfg env c e) (h2 : constructorFails cfg env c2 e2) : c = c2 ∧ e = e2 := by
  cases c <;> cases c2 <;> simp only [constructorFails] at h h2
  · obtain ⟨_, ha⟩ := h
    obtain ⟨_, hb⟩ := h2
    rw [ha] at hb
    exact ⟨rfl, Option.some.inj hb⟩
  · obtain ⟨h0, ha⟩ := h
    have := h2.1 h0
    rw [ha] at this
    exact absurd this (by simp)
  · obtain ⟨h0, ha⟩ := h
    have := h2.1 h0
    rw [ha] at this
    exact absurd this (by simp)
  · obtain ⟨h0, ha⟩ := h2
    have := h.1 h0
    rw [ha] at this
    exact absurd this (by simp)
  · obtain ⟨_, _, ha⟩ := h
    obtain ⟨_, _, hb⟩ := h2
    rw [ha] at hb
    exact ⟨rfl, Option.some.inj hb⟩
  · obtain ⟨_, h0, ha⟩ := h
    have := h2.2.1 h0
    rw [ha] at this
    exact absurd this (by simp)
  · obtain ⟨h0, ha⟩ := h2
    have := h.1 h0
    rw [ha] at this
    exact absurd this (by simp)
  · obtain ⟨_, h0, ha⟩ := h2
    have := h.2.1 h0
    rw [ha] at this
    exact absurd this (by simp)
  · obtain ⟨_, _, _, ha⟩ := h
    obtain ⟨_, _, _, hb⟩ := h2
    rw [ha] at hb
    exact ⟨rfl, Option.some.inj hb⟩

theorem constructorFails_not_succeeds (cfg : Config) (env : Env) {c : Component} {e : GoError}
    (h : constructorFails cfg env c e) : ¬ startupSucceeds cfg env := by
  intro hs
  cases c <;> simp only [constructorFails] at h
  · have := hs.1 h.1
    rw [h.2] at this
    exact absurd this (by simp)
  · have := hs.2.1 h.2.1
    rw [h.2.2] at this
    exact absurd this (by simp)
  · have := hs.2.2 h.2.2.1
    rw [h.2.2.2] at this
    exact absurd this (by simp)

theorem newScheduler_err (cfg : Config) (env : Env) :
    (newScheduler cfg env).2.2 = (env.ReadSchedule cfg.schedulerPath).2 := by
  rcases h : env.ReadSchedule cfg.schedulerPath with ⟨schedule, _ | e⟩ <;>
    simp [newScheduler, h]

theorem newProcWatch_err (cfg : Config) (env : Env) :
    (newProcWatch cfg env (consoleWriter cfg) (consoleWriter cfg)).2.2
      = env.Exec (watcherProcess cfg) 0 := by
  rcases h : env.Exec (watcherProcess cfg) 0 with _ | e
  · unfold watcherProcess at h
    by_cases ha : cfg.watcherAutoRestart = true <;>
      simp [newProcWatch, Watcher.Exec, Watcher.New, h, ha]
  · unfold watcherProcess at h
    simp [newProcWatch, Watcher.Exec, Watcher.New, h]

theorem newRcon_err_resolve (cfg : Config) (env : Env) (e : GoError)
    (h : (env.ResolveUDPAddr (rconAddress cfg)).2 = some e) :
    (newRcon cfg env).2.2 = some e := by
  unfold rconAddress at h
  rcases h1 : env.ResolveUDPAddr (cfg.armaIp ++ ":" ++ cfg.armaPort) with ⟨addr, err⟩
  rw [h1] at h
  simp only at h
  subst h
  simp [newRcon, h1]

theorem newRcon_err_connect (cfg : Config) (env : Env)
    (h : (env.ResolveUDPAddr (rconAddress cfg)).2 = none) :
    (newRcon cfg env).2.2
      = env.Connect (rconConnection cfg env) { Username := "", Password := cfg.armaPassword } := by
  unfold rconConnection
  unfold rconAddress at h ⊢
  rcases h1 : env.ResolveUDPAddr (cfg.armaIp ++ ":" ++ cfg.armaPort) with ⟨addr, err⟩
  rw [h1] at h
  simp only at h
  subst h
  rcases h2 : env.Connect (Connection.mk addr cfg.armaKeepAliveTimer
      cfg.armaKeepAliveTolerance) (Credentials.mk "" cfg.armaPassword) with _ | e <;>
    simp [newRcon, h1, h2]

/-- A failure of the outside world is the failure of the constructor that meets
it. -/
theorem constructorFails_of_startupFails (cfg : Config) (env : Env) {c : Component}
    {e : GoError} (h : startupFails cfg env c e) : constructorFails cfg env c e := by
  cases c <;> simp only [startupFails, scheduleLoads, processLaunches] at h <;>
    simp only [constructorFails, newScheduler_err, newProcWatch_err]
  · exact h
  · exact h
  · obtain ⟨h1, h2, h3, h4⟩ := h
    refine ⟨h1, h2, h3, ?_⟩
    rcases h4 with h4 | ⟨h4, h5⟩
    · exact newRcon_err_resolve cfg env e h4
    · rw [newRcon_err_connect cfg env h4]
      exact h5

/-- C1: when bringing up an enabled component `c` fails with the error `e`
during `do` (the configuration is loaded, every enabled component before `c`
came up, and for the scheduler `ReadSchedule` fails with `e`, for the watcher
the launch `Exec` of the configured process fails with `e`, for the RCON
client `ResolveUDPAddr` fails with `e` or, the address resolved, `Connect`
fails with `e`), `do` returns exactly `e`, makes no call that brings up a
component after `c` in the order scheduler, watcher, RCON client, and calls
neither `BuildEvents` nor `Start`. -/
theorem do_startup_failure (env : Env) (cfg : Config) (q : Option Int) (c : Component)
    (e : GoError) (hcfg : env.ReadInConfig = .ok cfg) (h : startupFails cfg env c e) :
    (do_ env q).2 = .returned (some e) ∧
    (∀ ev ∈ (do_ env q).1, ∀ c2, ev.component = some c2 → c2.rank ≤ c.rank) ∧
    (∀ s, Event.BuildEvents s ∉ (do_ env q).1) ∧
    (∀ s, Event.Start s ∉ (do_ env q).1) := by
  have hc := constructorFails_of_startupFails cfg env h
  rcases do_cases env cfg q hcfg with ⟨c2, e2, events, hf, heq, hp, _⟩ | ⟨hs, _⟩
  · obtain ⟨rfl, rfl⟩ := constructorFails_unique cfg env hc hf
    rw [heq]
    refine ⟨rfl, fun ev hev => (hp ev hev).2.1, fun s hm => ?_, fun s hm => ?_⟩
    · exact (hp _ hm).2.2.1 s rfl
    · exact (hp _ hm).2.2.2.1 s rfl
  · exact absurd hs (constructorFails_not_succeeds cfg env hc)

/-- Witness for C1: one world per way to fail.  The schedule cannot be read:
`do` returns that error and no watcher or RCON call is made.  The process
cannot be launched, the RCON address does not resolve, the RCON connection is
refused: each time `do` returns that error and does not call `BuildEvents` or
`Start`. -/
theorem do_startup_failure_witness :
    ((do_ envScheduleFails none).2 = .returned (some sampleError) ∧
      Event.newRcon ∉ (do_ envScheduleFails none).1) ∧
    ((do_ envExecFails none).2 = .returned (some sampleError) ∧
      Event.BuildEvents none ∉ (do_ envExecFails none).1) ∧
    ((do_ envResolveFails none).2 = .returned (some sampleError) ∧
      Event.Start none ∉ (do_ envResolveFails none).1) ∧
    ((do_ envConnectFails none).2 = .returned (some sampleError) ∧
      Event.BuildEvents none ∉ (do_ envConnectFails none).1) := by
  have h1 := do_startup_failure envScheduleFails sampleConfig none .scheduler sampleError rfl
    (by unfold startupFails; decide)
  have h2 := do_startup_failure envExecFails sampleConfig none .watcher sampleError rfl
    (by unfold startupFails scheduleLoads; decide)
  have h3 := do_startup_failure envResolveFails sampleConfig none .rcon sampleError rfl
    (by unfold startupFails scheduleLoads processLaunches; decide)
  have h4 := do_startup_failure envConnectFails sampleConfig none .rcon sampleError rfl
    (by unfold startupFails scheduleLoads processLaunches; decide)
  refine ⟨⟨h1.1, fun hm => ?_⟩, ⟨h2.1, h2.2.2.1 none⟩, ⟨h3.1, h3.2.2.2 none⟩,
    ⟨h4.1, h4.2.2.1 none⟩⟩
  exact absurd (h1.2.1 _ hm .rcon rfl) (by decide)

/-- C5: in every run of `do` with the scheduler enabled the calls on the
scheduler are, in this order, `UpdateFuncs` with the watcher's actions (if the
watcher is enabled), `UpdateFuncs` with the RCON client's actions (if the RCON
client is enabled), one `BuildEvents` and one `Start`, when every enabled
component comes up; otherwise they are a prefix of the `UpdateFuncs` calls alone.
So no `UpdateFuncs` follows `BuildEvents` or `Start`, and `BuildEvents` precedes
`Start`. -/
theorem do_scheduler_call_order (env : Env) (cfg : Config) (q : Option Int)
    (hcfg : env.ReadInConfig = .ok cfg) (hs : cfg.schedulerEnabled = true) :
    updateCalls cfg =
      (if cfg.watcherEnabled = true then [SchedCall.UpdateFuncs .watcher] else []) ++
      (if cfg.armaEnabled = true then [SchedCall.UpdateFuncs .rcon] else []) ∧
    ((startupSucceeds cfg env ∧
        (do_ env q).1.filterMap Event.schedCall
          = updateCalls cfg ++ [SchedCall.BuildEvents, SchedCall.Start]) ∨
      (¬ startupSucceeds cfg env ∧
        (do_ env q).1.filterMap Event.schedCall <+: updateCalls cfg)) := by
  constructor
  · simp [updateCalls, hs]
  · rcases do_cases env cfg q hcfg with ⟨c, e, events, hf, heq, _, hpre⟩ |
      ⟨hok, events, sched, heq, hsome, _, _, hcalls⟩
    · right
      rw [heq]
      exact ⟨constructorFails_not_succeeds cfg env hf, hpre⟩
    · left
      obtain ⟨s, rfl⟩ := hsome hs
      rw [heq, doFinish_some]
      refine ⟨hok, ?_⟩
      cases q <;> simp [List.filterMap_append, hcalls, Event.schedCall]

/-- Witness for C5: in the sample world the scheduler sees the two `UpdateFuncs`
calls, then `BuildEvents`, then `Start`. -/
theorem do_scheduler_call_order_witness :
    (do_ sampleEnv none).1.filterMap Event.schedCall =
      [SchedCall.UpdateFuncs .watcher, SchedCall.UpdateFuncs .rcon, SchedCall.BuildEvents,
        SchedCall.Start] := by
  rcases (do_scheduler_call_order sampleEnv sampleConfig none rfl rfl).2 with h | h
  · exact h.2.trans (by decide)
  · exact absurd (by unfold startupSucceeds; decide) h.1

/-- C7, as the code has it: the `quit` channel is handed to no call `do` makes
(not to `newScheduler`, `newProcWatch`, `newRcon` or `streamConsole`, nor
inside the `watcher.Process`), so no component can raise it; the receive on
`quit` comes right after `Start`, and for every value received `do` returns
nil. -/
theorem do_quit_stays_local (env : Env) (q : Option Int) :
    (∀ ev ∈ (do_ env q).1, Ref.quit ∉ ev.refs) ∧
    (∀ v, Event.recvQuit v ∈ (do_ env q).1 →
      q = some v ∧ (do_ env q).2 = .returned none ∧
      ∃ pre s, (do_ env q).1 = pre ++ [Event.Start s, Event.recvQuit v]) := by
  rcases hcfg : env.ReadInConfig with err | cfg
  · rw [do_config_error env q err hcfg]
    unfold readingConfigLog
    split <;> simp [Event.refs]
  · rcases do_cases env cfg q hcfg with ⟨c, e, events, _, heq, hp, _⟩ |
      ⟨_, events, sched, heq, _, _, hp, _⟩
    · rw [heq]
      exact ⟨fun ev hev => (hp ev hev).1, fun v hv => absurd rfl ((hp _ hv).2.2.2.2 v)⟩
    · rw [heq]
      have hq : ∀ v, Event.recvQuit v ∉ events := fun v hv => (hp _ hv).2.2.2.2 v rfl
      cases sched with
      | none =>
        rw [doFinish_none]
        constructor
        · intro ev hev
          simp only [List.mem_append, List.mem_singleton] at hev
          rcases hev with hev | rfl
          · exact (hp ev hev).1
          · simp [Event.refs]
        · intro v hv
          simp only [List.mem_append, List.mem_singleton] at hv
          rcases hv with hv | hv
          · exact absurd hv (hq v)
          · simp at hv
      | some s =>
        rw [doFinish_some]
        cases q with
        | none =>
          constructor
          · intro ev hev
            simp only [List.mem_append, List.mem_cons, List.mem_singleton, List.not_mem_nil,
              or_false] at hev
            rcases hev with hev | rfl | rfl
            · exact (hp ev hev).1
            all_goals simp [Event.refs]
          · intro v hv
            simp only [List.mem_append, List.mem_cons, List.mem_singleton, List.not_mem_nil,
              or_false] at hv
            rcases hv with hv | hv | hv
            · exact absurd hv (hq v)
            all_goals simp at hv
        | some w =>
          constructor
          · intro ev hev
            simp only [List.mem_append, List.mem_cons, List.mem_singleton, List.not_mem_nil,
              or_false] at hev
            rcases hev with (hev | rfl | rfl) | rfl
            · exact (hp ev hev).1
            all_goals simp [Event.refs]
          · intro v hv
            simp only [List.mem_append, List.mem_cons, List.mem_singleton, List.not_mem_nil,
              or_false] at hv
            rcases hv with (hv | hv | hv) | hv
            · exact absurd hv (hq v)
            · simp at hv
            · simp at hv
            · obtain rfl : v = w := by simpa using hv
              exact ⟨rfl, rfl, events ++ [Event.BuildEvents (some s)], some s, by simp⟩

/-- Witness for C7: in the sample world the value 7 received on `quit` makes
`do` return nil, and the pipe writer handed to `newProcWatch` is not `quit`. -/
theorem do_quit_stays_local_witness :
    Event.recvQuit 7 ∈ (do_ sampleEnv (some 7)).1 ∧
    (do_ sampleEnv (some 7)).2 = .returned none ∧
    Ref.quit ∉ (Event.newProcWatch (some .cw) (some .cw)).refs := by
  have h := do_quit_stays_local sampleEnv (some 7)
  have hm : Event.recvQuit 7 ∈ (do_ sampleEnv (some 7)).1 := by decide
  exact ⟨hm, (h.2 7 hm).2.1, h.1 _ (by decide)⟩

/-- Counterexample to C7 as stated: in the sample world, where all three
components come up, no call of `do` hands the `quit` channel to anyone. -/
theorem do_quit_shared_counterexample :
    ¬ ∃ ev ∈ (do_ sampleEnv (some 1)).1, Ref.quit ∈ ev.refs := by
  decide

/-- C2, the failing input: with `scheduler.enabled = false` and every enabled
component coming up, `do` calls `BuildEvents` on the nil scheduler (its only
scheduler call) and panics. -/
theorem do_nil_scheduler_BuildEvents :
    startupSucceeds configNoScheduler (envWith configNoScheduler) ∧
    (do_ (envWith configNoScheduler) none).1.filterMap Event.schedRecv = [none] ∧
    (do_ (envWith configNoScheduler) none).1.filterMap Event.schedCall
      = [SchedCall.BuildEvents] ∧
    (do_ (envWith configNoScheduler) none).2 = .panicked "nil pointer dereference" := by
  refine ⟨?_, by decide, by decide, by decide⟩
  unfold startupSucceeds
  decide

/-- C3, the failing input: `do` returns the schedule error; `main` logs it with
`glog.Fatal`, which exits with code 255, and never reaches
`raven.CaptureErrorAndWait`.  Only if `glog.Fatal` returned would the error be
captured. -/
theorem main_fatal_before_capture :
    (do_ envScheduleFails none).2 = .returned (some sampleError) ∧
    (main envScheduleFails none true).1.filterMap Event.capturedError = [] ∧
    (main envScheduleFails none true).2 = .exit 255 ∧
    (main envScheduleFails none true).1.getLast? = some (.osExit 255) ∧
    (main envScheduleFails none false).1.filterMap Event.capturedError = [sampleError] := by
  decide

/-- C4, the failing input: the schedule names the action `nope`, which is not
in the registry, so `BuildEvents` fails with `UnknownActionError`; `do` still
calls `Start` on that scheduler and then waits on `quit`, returning nil when a
value arrives. -/
theorem do_ignores_BuildEvents_failure :
    Event.BuildEvents (some unknownActionScheduler) ∈ (do_ envUnknownAction none).1 ∧
    Scheduler.BuildEvents unknownActionScheduler = some { msg := "UnknownActionError: nope" } ∧
    Event.Start (some unknownActionScheduler) ∈ (do_ envUnknownAction none).1 ∧
    (do_ envUnknownAction none).2 = .blocked ∧
    (do_ envUnknownAction (some 1)).2 = .returned none := by
  decide
/-! ## `streamConsole` and the line scanner -/

theorem bufio.indexByte_of_not_mem (c : Byte) :
    ∀ l : List Byte, c ∉ l → bufio.indexByte c l = none := by
  intro l
  induction l with
  | nil => intro _; rfl
  | cons x xs ih =>
    intro h
    have hx : x ≠ c := fun hxc => h (by simp [hxc])
    have hxs : c ∉ xs := fun hm => h (List.mem_cons_of_mem _ hm)
    simp [bufio.indexByte, hx, ih hxs]

theorem bufio.indexByte_first (c : Byte) :
    ∀ (pre post : List Byte), c ∉ pre →
      bufio.indexByte c (pre ++ c :: post) = some pre.length := by
  intro pre
  induction pre with
  | nil => intro post _; simp [bufio.indexByte]
  | cons x xs ih =>
    intro post h
    have hx : x ≠ c := fun hxc => h (by simp [hxc])
    have hxs : c ∉ xs := fun hm => h (List.mem_cons_of_mem _ hm)
    simp [bufio.indexByte, hx, ih post hxs]

theorem first_occurrence (c : Byte) :
    ∀ l : List Byte, c ∈ l → ∃ pre post, l = pre ++ c :: post ∧ c ∉ pre := by
  intro l
  induction l with
  | nil => intro h; simp at h
  | cons x xs ih =>
    intro h
    by_cases hx : x = c
    · exact ⟨[], xs, by simp [hx], by simp⟩
    · have hxs : c ∈ xs := by
        rcases List.mem_cons.1 h with h | h
        · exact absurd h.symm hx
        · exact h
      obtain ⟨pre, post, rfl, hpre⟩ := ih hxs
      refine ⟨x :: pre, post, by simp, ?_⟩
      intro hm
      rcases List.mem_cons.1 hm with h2 | h2
      · exact hx h2.symm
      · exact hpre h2

theorem bufio.dropCR_eq (l : List Byte) :
    bufio.dropCR l = if l.getLast? = some CR then l.dropLast else l := by
  unfold bufio.dropCR
  by_cases h : l.getLast? = some CR
  · have hl : 0 < l.length := by
      cases l with
      | nil => simp at h
      | cons x xs => simp
    simp [h, hl, List.dropLast_eq_take]
  · simp [h]

/-- The four ways a buffer of at most `maxTok` bytes can look to the scanner. -/
theorem scan_shape (maxTok : Nat) (rest : List Byte) :
    rest = [] ∨
    (∃ pre post, rest = pre ++ LF :: post ∧ LF ∉ pre ∧ pre.length < maxTok) ∨
    (LF ∉ rest ∧ rest ≠ [] ∧ rest.length < maxTok) ∨
    (LF ∉ rest.take maxTok ∧ maxTok ≤ rest.length) := by
  by_cases hnil : rest = []
  · exact Or.inl hnil
  · by_cases hm : LF ∈ rest.take maxTok
    · obtain ⟨pre, post, hpp, hpre⟩ := first_occurrence LF _ hm
      right; left
      refine ⟨pre, post ++ rest.drop maxTok, ?_, hpre, ?_⟩
      · have := List.take_append_drop maxTok rest
        rw [hpp] at this
        exact this.symm.trans (by simp)
      · have hlen : (rest.take maxTok).length ≤ maxTok := by simp
        rw [hpp] at hlen
        simp at hlen
        omega
    · by_cases hlt : rest.length < maxTok
      · right; right; left
        rw [List.take_of_length_le (by omega)] at hm
        exact ⟨hm, hnil, hlt⟩
      · right; right; right
        exact ⟨hm, by omega⟩

theorem Scan_nil (maxTok : Nat) (hmax : 0 < maxTok) (readErr : Option GoError)
    (tok : List Byte) (err : Option GoError) :
    bufio.Scanner.Scan ⟨[], readErr, maxTok, tok, err⟩ =
      (false, ⟨[], readErr, maxTok, tok, readErr⟩) := by
  simp [bufio.Scanner.Scan, bufio.ScanLines, hmax]

theorem Scan_line (maxTok : Nat) (readErr : Option GoError) (tok : List Byte)
    (err : Option GoError) (pre post : List Byte) (hpre : LF ∉ pre)
    (hlen : pre.length < maxTok) :
    bufio.Scanner.Scan ⟨pre ++ LF :: post, readErr, maxTok, tok, err⟩ =
      (true, ⟨post, readErr, maxTok, bufio.dropCR pre, err⟩) := by
  have htake : (pre ++ LF :: post).take maxTok
      = pre ++ LF :: post.take (maxTok - pre.length - 1) := by
    rw [List.take_append_eq_append_take, List.take_of_length_le (by omega)]
    congr 1
    obtain ⟨k, hk⟩ : ∃ k, maxTok - pre.length = k + 1 :=
      ⟨maxTok - pre.length - 1, by omega⟩
    rw [hk]
    simp
  simp only [bufio.Scanner.Scan, htake, bufio.ScanLines, bufio.indexByte_first LF pre _ hpre]
  simp

theorem Scan_last (maxTok : Nat) (readErr : Option GoError) (tok : List Byte)
    (err : Option GoError) (rest : List Byte) (hno : LF ∉ rest) (hne : rest ≠ [])
    (hlen : rest.length < maxTok) :
    bufio.Scanner.Scan ⟨rest, readErr, maxTok, tok, err⟩ =
      (true, ⟨[], readErr, maxTok, bufio.dropCR rest, err⟩) := by
  have htake : rest.take maxTok = rest := List.take_of_length_le (by omega)
  have hpos : rest.length ≠ 0 := fun h => hne (List.length_eq_zero.1 h)
  simp [bufio.Scanner.Scan, htake, bufio.ScanLines, bufio.indexByte_of_not_mem LF rest hno,
    hlen, hpos, hne]

theorem Scan_long (maxTok : Nat) (readErr : Option GoError) (tok : List Byte)
    (err : Option GoError) (rest : List Byte) (hno : LF ∉ rest.take maxTok)
    (hlen : maxTok ≤ rest.length) :
    bufio.Scanner.Scan ⟨rest, readErr, maxTok, tok, err⟩ =
      (false, ⟨rest, readErr, maxTok, tok, some bufio.ErrTooLong⟩) := by
  have hlt : ¬ rest.length < maxTok := by omega
  simp [bufio.Scanner.Scan, bufio.ScanLines, bufio.indexByte_of_not_mem LF _ hno, hlt]
theorem splitOn_newline_single (l : List Byte) (h : LF ∉ l) : l.splitOn LF = [l] := by
  refine List.splitOnP_eq_single _ _ ?_
  intro x hx hp
  have : x = LF := by simpa using hp
  exact h (this ▸ hx)

theorem splitOn_newline_first (pre post : List Byte) (h : LF ∉ pre) :
    (pre ++ LF :: post).splitOn LF = pre :: post.splitOn LF := by
  refine List.splitOnP_first _ _ ?_ _ (by simp) _
  intro x hx hp
  have : x = LF := by simpa using hp
  exact h (this ▸ hx)

theorem specLines_nil : specLines [] = [] := by
  simp [specLines, List.splitOn_nil]

theorem specLines_single (l : List Byte) (h : LF ∉ l) (hne : l ≠ []) :
    specLines l = [bufio.dropCR l] := by
  simp [specLines, splitOn_newline_single l h, hne, bufio.dropCR_eq]

theorem specLines_first (pre post : List Byte) (h : LF ∉ pre) :
    specLines (pre ++ LF :: post) = bufio.dropCR pre :: specLines post := by
  have hne : post.splitOn LF ≠ [] := List.splitOnP_ne_nil _ _
  obtain ⟨x, xs, hx⟩ := List.exists_cons_of_ne_nil hne
  simp only [specLines, splitOn_newline_first pre post h, hx, List.getLast?_cons_cons]
  by_cases hl : (x :: xs).getLast? = some []
  · simp [hl, bufio.dropCR_eq]
  · simp [hl, bufio.dropCR_eq]

theorem streamConsoleLoop_spec (maxTok : Nat) (hmax : 0 < maxTok) (readErr : Option GoError) :
    ∀ (n : Nat) (rest : List Byte), rest.length ≤ n →
      ∀ (tok : List Byte) (err : Option GoError) (events : List Event),
        ∃ consumed fin, consumed <+: rest ∧
          streamConsoleLoop (n + 1) ⟨rest, readErr, maxTok, tok, err⟩ events
            = some (events ++ (specLines consumed).map logLine, fin) ∧
          ((∀ piece ∈ rest.splitOn LF, piece.length < maxTok) →
            fin.err = readErr ∧ consumed = rest) ∧
          (¬ (∀ piece ∈ rest.splitOn LF, piece.length < maxTok) →
            fin.err = some bufio.ErrTooLong ∧
            ∃ tail, rest = consumed ++ tail ∧
              (consumed = [] ∨ consumed.getLast? = some LF) ∧
              (∀ piece ∈ consumed.splitOn LF, piece.length < maxTok) ∧
              LF ∉ tail.take maxTok ∧ maxTok ≤ tail.length) := by
  intro n
  induction n with
  | zero =>
    intro rest hlen tok err events
    have hnil : rest = [] := List.length_eq_zero.1 (by omega)
    subst hnil
    refine ⟨[], ⟨[], readErr, maxTok, tok, readErr⟩, List.prefix_refl _, ?_, ?_, ?_⟩
    · simp only [streamConsoleLoop, Scan_nil maxTok hmax]
      simp [specLines_nil]
    · intro _
      exact ⟨rfl, rfl⟩
    · intro h
      exact absurd (by simpa [List.splitOn_nil] using hmax) h
  | succ n ih =>
    intro rest hlen tok err events
    rcases scan_shape maxTok rest with hnil | ⟨pre, post, hrest, hpre, hplen⟩ |
      ⟨hno, hne, hlt⟩ | ⟨hno, hge⟩
    · subst hnil
      refine ⟨[], ⟨[], readErr, maxTok, tok, readErr⟩, List.prefix_refl _, ?_, ?_, ?_⟩
      · simp only [streamConsoleLoop, Scan_nil maxTok hmax]
        simp [specLines_nil]
      · intro _
        exact ⟨rfl, rfl⟩
      · intro h
        exact absurd (by simpa [List.splitOn_nil] using hmax) h
    · subst hrest
      have hpost : post.length ≤ n := by
        simp at hlen
        omega
      obtain ⟨consumed, fin, hpfx, hrun, hgood, hbad⟩ :=
        ih post hpost (bufio.dropCR pre) err
          (events ++ (glogInfoln (goString (bufio.dropCR pre))).map Event.glog)
      refine ⟨pre ++ LF :: consumed, fin, ?_, ?_, ?_, ?_⟩
      · exact (List.prefix_append_right_inj pre).2 ((List.prefix_cons_inj LF).2 hpfx)
      · rw [streamConsoleLoop, Scan_line maxTok readErr tok err pre post hpre hplen]
        simp only [bufio.Scanner.Text]
        rw [hrun, specLines_first pre consumed hpre]
        simp [glogInfoln, logLine]
      · intro h
        rw [splitOn_newline_first pre post hpre] at h
        have h2 := hgood fun piece hp => h piece (List.mem_cons_of_mem _ hp)
        exact ⟨h2.1, by rw [h2.2]⟩
      · intro h
        have hbadPost : ¬ ∀ piece ∈ post.splitOn LF, piece.length < maxTok := by
          intro h2
          apply h
          rw [splitOn_newline_first pre post hpre]
          intro piece hp
          rcases List.mem_cons.1 hp with rfl | hp
          · exact hplen
          · exact h2 piece hp
        obtain ⟨herr, tail, hsplit, hend, hfit, hnl, hlong⟩ := hbad hbadPost
        refine ⟨herr, tail, ?_, Or.inr ?_, ?_, hnl, hlong⟩
        · rw [hsplit]
          simp
        · rcases hend with hnil | hlast
          · subst hnil
            simp
          · cases consumed with
            | nil => simp at hlast
            | cons x xs =>
              rw [List.getLast?_append, List.getLast?_cons_cons, hlast]
              rfl
        · rw [splitOn_newline_first pre consumed hpre]
          intro piece hp
          rcases List.mem_cons.1 hp with rfl | hp
          · exact hplen
          · exact hfit piece hp
    · obtain ⟨consumed, fin, hpfx, hrun, hgood, _⟩ :=
        ih [] (Nat.zero_le _) (bufio.dropCR rest) err
          (events ++ (glogInfoln (goString (bufio.dropCR rest))).map Event.glog)
      have hc : consumed = [] := List.prefix_nil.1 hpfx
      subst hc
      refine ⟨rest, fin, List.prefix_refl _, ?_, ?_, ?_⟩
      · rw [streamConsoleLoop, Scan_last maxTok readErr tok err rest hno hne hlt]
        simp only [bufio.Scanner.Text]
        rw [hrun, specLines_single rest hno hne]
        simp [glogInfoln, logLine, specLines_nil]
      · intro _
        exact ⟨(hgood (by simpa [List.splitOn_nil] using hmax)).1, rfl⟩
      · intro h
        exact absurd (by simpa [splitOn_newline_single rest hno] using hlt) h
    · have hbadP : ¬ ∀ piece ∈ rest.splitOn LF, piece.length < maxTok := by
        intro h
        by_cases hm : LF ∈ rest
        · obtain ⟨pre, post, hrest, hpre⟩ := first_occurrence LF rest hm
          subst hrest
          rw [splitOn_newline_first pre post hpre] at h
          have hlt : pre.length < maxTok := h pre (List.mem_cons_self _ _)
          apply hno
          rw [List.take_append_eq_append_take]
          apply List.mem_append_right
          obtain ⟨k, hk⟩ : ∃ k, maxTok - pre.length = k + 1 :=
            ⟨maxTok - pre.length - 1, by omega⟩
          rw [hk]
          simp
        · rw [splitOn_newline_single rest hm] at h
          have := h rest (List.mem_singleton_self _)
          omega
      refine ⟨[], ⟨rest, readErr, maxTok, tok, some bufio.ErrTooLong⟩, List.nil_prefix,
        ?_, ?_, ?_⟩
      · rw [streamConsoleLoop, Scan_long maxTok readErr tok err rest hno hge]
        simp [specLines_nil]
      · intro h
        exact absurd h hbadP
      · intro _
        exact ⟨rfl, rest, rfl, Or.inl rfl, by simpa [List.splitOn_nil] using hmax, hno, hge⟩

/-- C9: `streamConsole` run on an input stream that ends returns, and what it
logs is one entry per line, in input order and without the line terminator, of
a prefix `consumed` of the input.  If every piece between newlines is shorter
than the 65536 bytes of the scanner's buffer, the scanner reads to the end: all
the input is consumed and `streamConsole` returns the reader's final error,
which is nil when the stream ended with EOF.  Otherwise the scanner stops with
`ErrTooLong`, `streamConsole` returns it, and `consumed` is exactly the lines
before the first line that does not fit: it is empty or ends with a newline,
all its lines fit, and what follows it has no newline in its first 65536
bytes.  So when no error is returned the entries are the lines of the whole
input, and when an error is returned it is the scanner's, reported after the
lines read before it and no others. -/
theorem streamConsole_forwards_lines (consoleOut : Reader) :
    ∃ consumed err, consumed <+: consoleOut.data ∧
      streamConsole consoleOut =
        some ((specLines consumed).map logLine ++
          (match err with
            | none => []
            | some e => [Event.stderr ("There was an error with the consoleScanner " ++ e.msg)]),
          err) ∧
      (err = none → consumed = consoleOut.data) ∧
      ((∀ piece ∈ consoleOut.data.splitOn LF, piece.length < bufio.MaxScanTokenSize) →
        err = consoleOut.err ∧ consumed = consoleOut.data) ∧
      (¬ (∀ piece ∈ consoleOut.data.splitOn LF, piece.length < bufio.MaxScanTokenSize) →
        err = some bufio.ErrTooLong ∧
        ∃ tail, consoleOut.data = consumed ++ tail ∧
          (consumed = [] ∨ consumed.getLast? = some LF) ∧
          (∀ piece ∈ consumed.splitOn LF, piece.length < bufio.MaxScanTokenSize) ∧
          LF ∉ tail.take bufio.MaxScanTokenSize ∧ bufio.MaxScanTokenSize ≤ tail.length) := by
  obtain ⟨consumed, fin, hpfx, hrun, hgood, hbad⟩ :=
    streamConsoleLoop_spec bufio.MaxScanTokenSize (by decide) consoleOut.err
      consoleOut.data.length consoleOut.data (Nat.le_refl _) [] none []
  refine ⟨consumed, fin.err, hpfx, ?_, ?_, hgood, hbad⟩
  · unfold streamConsole
    simp only [bufio.NewScanner, hrun, bufio.Scanner.Err]
    cases fin.err <;> simp
  · intro hnone
    by_cases hP : ∀ piece ∈ consoleOut.data.splitOn LF, piece.length < bufio.MaxScanTokenSize
    · exact (hgood hP).2
    · rw [(hbad hP).1] at hnone
      exact absurd hnone (by simp)

/-- Witness for C9: the bytes of `ab\r\ncd\nef`, three lines, one ended by
carriage return and newline, one by a newline, the last by the end of the
stream, are logged as the entries `ab`, `cd`, `ef` and nil is returned; with a
reader that ends in an error the same lines are logged and that error is
returned; a stream of 65536 bytes `x` without a newline makes `streamConsole`
log nothing and return `ErrTooLong`. -/
theorem streamConsole_forwards_lines_witness :
    streamConsole { data := [97, 98, CR, LF, 99, 100, LF, 101, 102], err := none } =
      some ([Event.glog { severity := .info, text := "ab" },
        Event.glog { severity := .info, text := "cd" },
        Event.glog { severity := .info, text := "ef" }], none) ∧
    (∃ events,
      streamConsole { data := [97, 98, CR, LF, 99, 100, LF, 101, 102], err := some sampleError } =
        some (events, some sampleError)) ∧
    streamConsole { data := List.replicate bufio.MaxScanTokenSize 120, err := none } =
      some ([Event.stderr
        "There was an error with the consoleScanner bufio.Scanner: token too long"],
        some bufio.ErrTooLong) := by
  refine ⟨?_, ?_, ?_⟩
  · obtain ⟨consumed, err, _, hrun, _, hgood, _⟩ :=
      streamConsole_forwards_lines
        { data := [97, 98, CR, LF, 99, 100, LF, 101, 102], err := none }
    obtain ⟨rfl, rfl⟩ := hgood (by decide)
    rw [hrun]
    decide
  · obtain ⟨consumed, err, _, hrun, _, hgood, _⟩ :=
      streamConsole_forwards_lines
        { data := [97, 98, CR, LF, 99, 100, LF, 101, 102], err := some sampleError }
    obtain ⟨rfl, rfl⟩ := hgood (by decide)
    exact ⟨_, hrun⟩
  · obtain ⟨consumed, err, _, hrun, _, _, hbad⟩ :=
      streamConsole_forwards_lines
        { data := List.replicate bufio.MaxScanTokenSize 120, err := none }
    have hno : LF ∉ List.replicate bufio.MaxScanTokenSize (120 : Byte) := by
      intro h
      exact absurd (List.eq_of_mem_replicate h) (by decide)
    have hP : ¬ ∀ piece ∈ (List.replicate bufio.MaxScanTokenSize (120 : Byte)).splitOn LF,
        piece.length < bufio.MaxScanTokenSize := by
      rw [splitOn_newline_single _ hno]
      intro h
      have := h _ (List.mem_singleton_self _)
      simp at this
    obtain ⟨rfl, tail, hsplit, hend, _, _, hlong⟩ := hbad hP
    have hlen := congrArg List.length hsplit
    simp only [List.length_replicate, List.length_append] at hlen
    have hc : consumed = [] := List.length_eq_zero.1 (by omega)
    subst hc
    rw [hrun]
    simp [specLines_nil, bufio.ErrTooLong]

end GorconArma
